import Mathlib

/-!
# PrivateVotingSystem: deployment and configuration-sync scripts

A shallow embedding of the repository's scripts:

* `update-config-private-voting.cjs` and `update-config.js` (config synchronizers),
* `frontend/public/config.js` (the configuration document, as text),
* `scripts/deploy-private-voting.js`, `scripts/deploy-private-voting-original.js`,
  `scripts/deploy-public-voting.js` (deployers).

Conventions.

* A JavaScript string is a `Text`, a list of characters.  The texts handled here are
  decoded from UTF-8 (file contents, command-line arguments), hence well formed, and
  the regular expressions of the scripts only name ASCII characters, so matching by
  character and matching by UTF-16 code unit select the same substrings.
* The runtime functions the scripts call (`RegExp.prototype.test`,
  `String.prototype.replace`, `JSON.stringify`, `Date.prototype.toISOString`, `fs`)
  are embedded as executable functions with the behaviour the scripts rely on.
* `console.log` and `console.error` write to the terminal only and are left out.
* A run of a script is a function from its inputs (argument vector, file contents,
  outcomes of the remote calls) to the exit status and the resulting files.
-/

set_option maxRecDepth 20000

/-- A JavaScript string. -/
abbrev Text := List Char

/-- The single quote character. -/
def squote : Char := '\x27'

/-! ## Regular expressions (the fragment used by the scripts) -/

/-- A character class `[...]` or `[^...]`, as a list of inclusive ranges. -/
structure CharClass where
  negated : Bool
  ranges : List (Char × Char)

/-- Membership of a character in a class. -/
def CharClass.test (k : CharClass) (c : Char) : Bool :=
  xor k.negated (k.ranges.any fun r => decide (r.1 ≤ c) && decide (c ≤ r.2))

/-- A pattern atom: one literal character or one character class. -/
inductive Atom where
  | chr (c : Char)
  | cls (k : CharClass)

/-- Does the atom match the character? -/
def Atom.test : Atom → Char → Bool
  | .chr c, x => x == c
  | .cls k, x => k.test x

/-- A term of a pattern: an atom, a greedy `*`, an exact repetition `{n}`, or one of
the assertions `^` and `$` (no `m` flag: start and end of the whole input). -/
inductive Term where
  | one (a : Atom)
  | star (a : Atom)
  | rep (a : Atom) (n : Nat)
  | bol
  | eol

/-- Greedy `a*` followed by the continuation `k`: take as many characters as possible,
backtracking to fewer when the continuation fails.  The `Nat` is the input index. -/
def starGreedy (p : Char → Bool) (k : Nat → Text → Option Text) : Nat → Text → Option Text
  | i, [] => k i []
  | i, c :: s =>
    if p c then
      match starGreedy p k (i + 1) s with
      | some r => some r
      | none => k i (c :: s)
    else k i (c :: s)

/-- Exactly `n` repetitions `a{n}` followed by the continuation `k`. -/
def repExact (p : Char → Bool) (k : Nat → Text → Option Text) : Nat → Nat → Text → Option Text
  | 0, i, s => k i s
  | _ + 1, _, [] => none
  | n + 1, i, c :: s => if p c then repExact p k n (i + 1) s else none

/-- Match the pattern at input index `i`, where `s` is the input from `i` on.
Returns what is left of the input after the match. -/
def matchHere : List Term → Nat → Text → Option Text
  | [], _, s => some s
  | .one a :: ts, i, s =>
    match s with
    | [] => none
    | c :: s' => if a.test c then matchHere ts (i + 1) s' else none
  | .star a :: ts, i, s => starGreedy a.test (matchHere ts) i s
  | .rep a n :: ts, i, s => repExact a.test (matchHere ts) n i s
  | .bol :: ts, i, s => if i = 0 then matchHere ts i s else none
  | .eol :: ts, i, s => if s = [] then matchHere ts i s else none

/-- A successful search: the input split around the matched substring. -/
structure Match where
  before : Text
  matched : Text
  after : Text
deriving DecidableEq, Repr

/-- An attempt at one start index: the match found there, with nothing before it. -/
def matchAt (ts : List Term) (i : Nat) (s : Text) : Option Match :=
  (matchHere ts i s).map fun rest => ⟨[], s.take (s.length - rest.length), rest⟩

/-- The search of `RegExp.prototype.exec` (no `g`, no `y`): try every start index from
left to right and keep the first at which the pattern matches. -/
def execFrom (ts : List Term) : Nat → Text → Option Match
  | i, [] => matchAt ts i []
  | i, c :: s =>
    match matchAt ts i (c :: s) with
    | some m => some m
    | none => (execFrom ts (i + 1) s).map fun m => { m with before := c :: m.before }

/-- The method `RegExp.prototype.test`. -/
def reTest (ts : List Term) (s : Text) : Bool := (execFrom ts 0 s).isSome

/-- A literal string as a pattern. -/
def literal (s : String) : List Term := s.toList.map fun c => Term.one (Atom.chr c)

/-! ## `String.prototype.replace` -/

/-- The abstract operation GetSubstitution for a pattern without capture groups:
`$$`, `$&`, the dollar-backtick and the dollar-quote forms are expanded, every other
character of the template (a `$` before anything else included) is copied. -/
def getSubstitution (m : Match) : Text → Text
  | [] => []
  | [c] => [c]
  | c :: d :: t =>
    if c = '$' then
      if d = '$' then '$' :: getSubstitution m t
      else if d = '&' then m.matched ++ getSubstitution m t
      else if d = '\x60' then m.before ++ getSubstitution m t
      else if d = squote then m.after ++ getSubstitution m t
      else c :: getSubstitution m (d :: t)
    else c :: getSubstitution m (d :: t)

/-- The call `s.replace(re, template)` for a regular expression without the `g` flag:
the first match is replaced, and `s` is returned as it is when there is none. -/
def replaceRegExp (ts : List Term) (template s : Text) : Text :=
  match execFrom ts 0 s with
  | none => s
  | some m => m.before ++ getSubstitution m template ++ m.after

/-- First occurrence of `needle` in the input (what `indexOf` finds). -/
def findFirst (needle : Text) : Text → Option Match
  | [] => if needle.isPrefixOf [] then some ⟨[], needle, []⟩ else none
  | c :: s =>
    if needle.isPrefixOf (c :: s) then some ⟨[], needle, (c :: s).drop needle.length⟩
    else (findFirst needle s).map fun m => { m with before := c :: m.before }

/-- The call `s.replace(needle, template)` for a string `needle`: the first occurrence
is replaced, and `s` is returned as it is when there is none. -/
def replaceString (needle template s : Text) : Text :=
  match findFirst needle s with
  | none => s
  | some m => m.before ++ getSubstitution m template ++ m.after

/-! ## The config synchronizers -/

/-- What a run of a config-sync script leaves behind: the exit status, the content of
`frontend/public/config.js` (`none`: no such file) and the texts handed to
`fs.writeFileSync`, in order. -/
structure SyncOutcome where
  status : Nat
  config : Option Text
  written : List Text
deriving DecidableEq, Repr

/-- The element `process.argv[2]`. -/
def argv2 (argv : List Text) : Option Text := argv[2]?

namespace UpdateConfigPrivateVoting

/-- The pattern `/^0x[a-fA-F0-9]{40}$/` (line 35). -/
def addressRe : List Term :=
  [.bol, .one (.chr '0'), .one (.chr 'x'),
   .rep (.cls ⟨false, [('a', 'f'), ('A', 'F'), ('0', '9')]⟩) 40, .eol]

/-- The pattern `/PRIVATE_VOTING: '[^']*'/` (line 12). -/
def privateVotingRe : List Term :=
  literal "PRIVATE_VOTING: '" ++
    [.star (.cls ⟨true, [(squote, squote)]⟩), .one (.chr squote)]

/-- The template literal of line 13. -/
def replacement (contractAddress : Text) : Text :=
  "PRIVATE_VOTING: '".toList ++ contractAddress ++ "'".toList

/-- The text that `updatePrivateVotingAddress` computes from the file content
(lines 11 to 14). -/
def updatedContent (contractAddress configContent : Text) : Text :=
  replaceRegExp privateVotingRe (replacement contractAddress) configContent

/-- The function `updatePrivateVotingAddress`: read the file (an exception when it
cannot be read), replace, write back.  Returns the new file state and the written
texts, or `none` for the exception. -/
def updatePrivateVotingAddress (contractAddress : Text) (file : Option Text) :
    Option (Text × List Text) :=
  match file with
  | none => none
  | some configContent =>
    let configContent := updatedContent contractAddress configContent
    some (configContent, [configContent])

/-- The script run directly (lines 26 to 41). -/
def main (argv : List Text) (file : Option Text) : SyncOutcome :=
  match argv2 argv with
  | none => ⟨1, file, []⟩
  | some contractAddress =>
    if contractAddress = [] then ⟨1, file, []⟩
    else if !reTest addressRe contractAddress then ⟨1, file, []⟩
    else
      match updatePrivateVotingAddress contractAddress file with
      | none => ⟨1, file, []⟩
      | some (content, written) => ⟨0, some content, written⟩

end UpdateConfigPrivateVoting

namespace UpdateConfig

/-- The search string of line 12. -/
def placeholder1 : Text :=
  "PRODUCT_FEEDBACK_VOTING: '0x0000000000000000000000000000000000000000'".toList

/-- The template literal of line 13. -/
def replacement1 (contractAddress : Text) : Text :=
  "PRODUCT_FEEDBACK_VOTING: '".toList ++ contractAddress ++ "'".toList

/-- The search string of line 18. -/
def placeholder2 : Text :=
  "CONTRACT_ADDRESS = window.CONFIG?.CONTRACT_ADDRESS || \"0x0000000000000000000000000000000000000000\"".toList

/-- The template literal of line 19. -/
def replacement2 (contractAddress : Text) : Text :=
  "CONTRACT_ADDRESS = window.CONFIG?.CONTRACTS?.PRODUCT_FEEDBACK_VOTING || \"".toList
    ++ contractAddress ++ "\"".toList

/-- The text that `updateContractAddress` computes from the file content
(lines 11 to 20). -/
def updatedContent (contractAddress configContent : Text) : Text :=
  let configContent := replaceString placeholder1 (replacement1 contractAddress) configContent
  replaceString placeholder2 (replacement2 contractAddress) configContent

/-- The function `updateContractAddress`. -/
def updateContractAddress (contractAddress : Text) (file : Option Text) :
    Option (Text × List Text) :=
  match file with
  | none => none
  | some configContent =>
    let configContent := updatedContent contractAddress configContent
    some (configContent, [configContent])

/-- The script run directly (lines 32 to 41): the argument is only tested for
presence. -/
def main (argv : List Text) (file : Option Text) : SyncOutcome :=
  match argv2 argv with
  | none => ⟨1, file, []⟩
  | some contractAddress =>
    if contractAddress = [] then ⟨1, file, []⟩
    else
      match updateContractAddress contractAddress file with
      | none => ⟨1, file, []⟩
      | some (content, written) => ⟨0, some content, written⟩

end UpdateConfig

/-! ## Occurrences and shapes (notions for the statements about `update-config.js`) -/

/-- The number of positions at which `needle` occurs in the text. -/
def occurrences (needle : Text) : Text → Nat
  | [] => if needle.isPrefixOf [] then 1 else 0
  | c :: s => (if needle.isPrefixOf (c :: s) then 1 else 0) + occurrences needle s

/-- The shape of a text: the characters allowed at each position. -/
abbrev Shape := List (List Char)

/-- Can the text and a text of the given shape be laid at the same place, that is, does
every character of the text lie in the set at its position, as far as both go? -/
def agrees : Text → Shape → Bool
  | c :: s, k :: ks => k.contains c && agrees s ks
  | _, _ => true

/-- The shape of one text. -/
def exactly (s : String) : Shape := s.toList.map fun c => [c]

/-- The shape of the strings accepted by `/^0x[a-fA-F0-9]{40}$/`. -/
def addressShape : Shape :=
  ['0'] :: ['x'] :: List.replicate 40 "0123456789abcdefABCDEF".toList

namespace UpdateConfig

/-- The shape of `replacement1` of an address. -/
def shape1 : Shape := exactly "PRODUCT_FEEDBACK_VOTING: '" ++ addressShape ++ exactly "'"

/-- The shape of `replacement2` of an address. -/
def shape2 : Shape :=
  exactly "CONTRACT_ADDRESS = window.CONFIG?.CONTRACTS?.PRODUCT_FEEDBACK_VOTING || \""
    ++ addressShape ++ exactly "\""

end UpdateConfig

/-! ## The configuration document -/

/-- A text from its lines, each ended by a line feed. -/
def unlines : List String → Text
  | [] => []
  | l :: ls => l.toList ++ '\n' :: unlines ls

/-- The lines of `frontend/public/config.js`. -/
def configLines : List String := [
  "// Anonymous Voting System Configuration - Sepolia Deployment",
  "",
  "const CONFIG = \x7b",
  "    // Network Configuration",
  "    NETWORK: \x7b",
  "        NAME: 'Localhost',",
  "        CHAIN_ID: 31337,",
  "        CHAIN_ID_HEX: '0x7a69',",
  "        RPC_URL: 'http://127.0.0.1:8545',",
  "        EXPLORER_URL: 'http://localhost:8545',",
  "        FAUCET_URL: 'http://localhost:8545'",
  "    \x7d,",
  "    ",
  "    // Smart Contract Addresses (will be updated after deployment)",
  "    CONTRACTS: \x7b",
  "        PRIVATE_VOTING: '0xF8976BA463c31f4A0fbD6948Da43a77e74EE4196' // PrivateVotingSystem FHE contract",
  "    \x7d,",
  "    ",
  "    // Gas Settings (20 gwei for cost efficiency)",
  "    GAS: \x7b",
  "        PRICE: '20000000000', // 20 gwei",
  "        LIMIT: '200000'",
  "    \x7d,",
  "    ",
  "    // FHE Configuration",
  "    FHE: \x7b",
  "        ENABLED: true,",
  "        PROVIDER: 'Zama',",
  "        VERSION: '0.5.0',",
  "        ENCRYPTION_TYPE: 'TFHE',",
  "        GATEWAY_URL: 'https://gateway.sepolia.zama.ai/'",
  "    \x7d,",
  "    ",
  "    // App Settings",
  "    APP: \x7b",
  "        NAME: 'Anonymous Voting System',",
  "        VERSION: '1.0.0',",
  "        DESCRIPTION: 'Anonymous Product Rating System with FHE Encryption',",
  "        FEATURES: [",
  "            'Anonymous Rating Submission',",
  "            'Encrypted Vote Storage',",
  "            'Privacy-Preserving Aggregation',",
  "            'User Experience Evaluation'",
  "        ]",
  "    \x7d",
  "\x7d;",
  "",
  "// Global access - updated for new naming",
  "window.CONFIG = CONFIG;",
  "",
  "// Export for modules",
  "if (typeof module !== 'undefined' && module.exports) \x7b",
  "    module.exports = CONFIG;",
  "\x7d",
  "",
  "console.log('⭐ Anonymous Voting System Configuration Loaded');",
  "console.log('📊 Contract deployed on localhost network');",
  "console.log('🚀 Ready for anonymous product rating with FHE!');"
]

/-- The content of `frontend/public/config.js`. -/
def configJs : Text := unlines configLines

/-! ## `JSON.stringify` and `Date.prototype.toISOString` -/

/-- The values stored in a deployment record: strings and non-negative integers
(block heights and counts, far below `2 ^ 53`, which print in plain decimal). -/
inductive JVal where
  | str (s : Text)
  | num (n : Nat)
deriving DecidableEq, Repr

/-- A hexadecimal digit in lower case. -/
def hexDigit (n : Nat) : Char := (Nat.toDigits 16 (n % 16)).headD '0'

/-- The escape of one character inside a JSON string (QuoteJSONString). -/
def quoteChar (c : Char) : Text :=
  if c = '"' then ['\\', '"']
  else if c = '\\' then ['\\', '\\']
  else if c = '\x08' then ['\\', 'b']
  else if c = '\x0c' then ['\\', 'f']
  else if c = '\n' then ['\\', 'n']
  else if c = '\r' then ['\\', 'r']
  else if c = '\t' then ['\\', 't']
  else if c.toNat < 32 then ['\\', 'u', '0', '0', hexDigit (c.toNat / 16), hexDigit c.toNat]
  else [c]

/-- A JSON string literal. -/
def quoteJSONString : Text → Text
  | s => '"' :: (s.map quoteChar).flatten ++ ['"']

/-- The serialization of one value. -/
def JVal.stringify : JVal → Text
  | .str s => quoteJSONString s
  | .num n => Nat.toDigits 10 n

/-- The members of an object, one per line, indented by two blanks and separated by
commas. -/
def stringifyMembers : List (String × JVal) → Text
  | [] => []
  | [(k, v)] => "  ".toList ++ quoteJSONString k.toList ++ ": ".toList ++ v.stringify
  | (k, v) :: kv :: rest =>
    "  ".toList ++ quoteJSONString k.toList ++ ": ".toList ++ v.stringify ++ ",\n".toList
      ++ stringifyMembers (kv :: rest)

/-- The call `JSON.stringify(record, null, 2)` on a flat object given by its
properties in insertion order. -/
def jsonStringify (record : List (String × JVal)) : Text :=
  match record with
  | [] => "\x7b\x7d".toList
  | _ => "\x7b\n".toList ++ stringifyMembers record ++ "\n\x7d".toList

/-- A number in decimal, padded with zeros on the left to `w` digits. -/
def padDigits (w n : Nat) : Text :=
  let ds := Nat.toDigits 10 n
  List.replicate (w - ds.length) '0' ++ ds

/-- The civil date (year, month, day) of a day number counted from 1970-01-01. -/
def civilFromDays (days : Nat) : Nat × Nat × Nat :=
  let z := days + 719468
  let era := z / 146097
  let doe := z % 146097
  let yoe := (doe - doe / 1460 + doe / 36524 - doe / 146096) / 365
  let doy := doe - (365 * yoe + yoe / 4 - yoe / 100)
  let mp := (5 * doy + 2) / 153
  let d := doy - (153 * mp + 2) / 5 + 1
  let m := if mp < 10 then mp + 3 else mp - 9
  let y := yoe + era * 400 + (if m ≤ 2 then 1 else 0)
  (y, m, d)

/-- The method `toISOString` of a date given by its time value, the milliseconds
since 1970-01-01T00:00:00Z (a clock reading: not before 1970). -/
def toISOString (t : Nat) : Text :=
  let (y, m, d) := civilFromDays (t / 86400000)
  let ms := t % 86400000
  (if y ≤ 9999 then padDigits 4 y else '+' :: padDigits 6 y)
    ++ '-' :: padDigits 2 m ++ '-' :: padDigits 2 d
    ++ 'T' :: padDigits 2 (ms / 3600000) ++ ':' :: padDigits 2 (ms / 60000 % 60)
    ++ ':' :: padDigits 2 (ms / 1000 % 60) ++ '.' :: padDigits 3 (ms % 1000) ++ ['Z']

/-! ## The deployers -/

/-- A rejected promise or a thrown exception; the payload is the message. -/
abbrev Err := String

/-- An account of the network. -/
structure Signer where
  address : Text
deriving DecidableEq, Repr

/-- The outcomes of the remote calls a deployer makes through hardhat's `ethers`, and
the clock reading: `getBalance` is the call `ethers.provider.getBalance(deployer.address)`,
`deploy`, `waitForDeployment` and `getAddress` are the calls on the factory and on the
contract, `txWait name` is `tx.wait()` on the transaction of `createProduct(name, _)`, and
`confirmations n` is `deploymentTransaction().wait(n)`. -/
structure Chain where
  getSigners : Except Err (List Signer)
  getBalance : Except Err Nat
  getContractFactory : Text → Except Err Unit
  deploy : Except Err Unit
  waitForDeployment : Except Err Unit
  getAddress : Except Err Text
  createProduct : Text → Text → Except Err Unit
  txWait : Text → Except Err Unit
  getBlockNumber : Except Err Nat
  confirmations : Nat → Except Err Unit
  now : Nat

/-- The part of the file system the deployers touch, by path from the repository root:
the directories created and the files written, latest first (so every `mkdirSync` and
every `writeFileSync` shows in the state). -/
structure FS where
  dirs : List Text
  files : List (Text × Text)
deriving DecidableEq, Repr

/-- The content of a file: its latest write. -/
def FS.read (fs : FS) (path : Text) : Option Text :=
  (fs.files.find? fun f => f.1 == path).map fun f => f.2

/-- A step of a script: it reads and changes the files and either returns or throws;
the files written before an exception stay written. -/
def Script (α : Type) : Type := FS → Except Err α × FS

/-- Return a value. -/
def Script.pure {α : Type} (a : α) : Script α := fun fs => (.ok a, fs)

/-- Sequencing: the second step runs only when the first one returned. -/
def Script.bind {α β : Type} (x : Script α) (f : α → Script β) : Script β := fun fs =>
  match x fs with
  | (.ok a, fs') => f a fs'
  | (.error e, fs') => (.error e, fs')

instance : Monad Script where
  pure := Script.pure
  bind := Script.bind

/-- An awaited remote call: its outcome is returned or thrown. -/
def await {α : Type} (r : Except Err α) : Script α := fun fs => (r, fs)

/-- The call `fs.existsSync(dir)`. -/
def existsSync (dir : Text) : Script Bool := fun fs => (.ok (decide (dir ∈ fs.dirs)), fs)

/-- The call `fs.mkdirSync(dir, { recursive: true })`. -/
def mkdirSync (dir : Text) : Script Unit := fun fs => (.ok (), { fs with dirs := dir :: fs.dirs })

/-- The call `fs.writeFileSync(path, content)`: the file is created or replaced. -/
def writeFileSync (path content : Text) : Script Unit := fun fs =>
  (.ok (), { fs with files := (path, content) :: fs.files })

/-- Did the call fail (a rejected promise)? -/
def failed {α : Type} : Except Err α → Bool
  | .ok _ => false
  | .error _ => true

/-- The first element of an array pattern `const [deployer] = ...`; reading `.address`
of a missing one throws. -/
def firstSigner : List Signer → Except Err Signer
  | [] => .error "TypeError"
  | deployer :: _ => .ok deployer

/-- What a run of a deployer leaves behind: the exit status and the files. -/
structure DeployOutcome where
  status : Nat
  fs : FS
deriving DecidableEq, Repr

/-- The tail of each deployer, `main().then(() => process.exit(0)).catch(... process.exit(1))`. -/
def exitWith (main : Script Unit) (fs : FS) : DeployOutcome :=
  match main fs with
  | (.ok _, fs') => ⟨0, fs'⟩
  | (.error _, fs') => ⟨1, fs'⟩

/-- The path `path.join(__dirname, '../deployments')`, from the repository root. -/
def deploymentsDir : Text := "deployments".toList

namespace DeployPrivateVoting

/-- The object `deploymentInfo` (lines 26 to 32). -/
def deploymentInfo (contractAddress deployerAddress deployedAt : Text) (blockNumber : Nat) :
    List (String × JVal) :=
  [("contractAddress", .str contractAddress),
   ("deployerAddress", .str deployerAddress),
   ("network", .str "localhost".toList),
   ("deployedAt", .str deployedAt),
   ("blockNumber", .num blockNumber)]

/-- The path of the record file (line 41). -/
def recordPath : Text := deploymentsDir ++ "/localhost-private-voting.json".toList

/-- The function `main` of `scripts/deploy-private-voting.js`. -/
def main (env : Chain) : Script Unit := do
  let deployer ← await (env.getSigners >>= firstSigner)
  let _ ← await env.getBalance
  await (env.getContractFactory "PrivateVotingSystem".toList)
  await env.deploy
  await env.waitForDeployment
  let contractAddress ← await env.getAddress
  let deployedAt := toISOString env.now
  let blockNumber ← await env.getBlockNumber
  let info := deploymentInfo contractAddress deployer.address deployedAt blockNumber
  if !(← existsSync deploymentsDir) then
    mkdirSync deploymentsDir
  writeFileSync recordPath (jsonStringify info)
  await (env.confirmations 5)

/-- A run of the script. -/
def run (env : Chain) (fs : FS) : DeployOutcome := exitWith (main env) fs

end DeployPrivateVoting

namespace DeployPrivateVotingOriginal

/-- The object `deploymentInfo` (lines 19 to 25). -/
def deploymentInfo (contractAddress deployerAddress deployedAt : Text) (blockNumber : Nat) :
    List (String × JVal) :=
  [("contractAddress", .str contractAddress),
   ("deployerAddress", .str deployerAddress),
   ("network", .str "sepolia".toList),
   ("deployedAt", .str deployedAt),
   ("blockNumber", .num blockNumber)]

/-- The path of the record file (line 36). -/
def recordPath : Text := deploymentsDir ++ "/sepolia-private-voting.json".toList

/-- The function `main` of `scripts/deploy-private-voting-original.js`. -/
def main (env : Chain) : Script Unit := do
  let deployer ← await (env.getSigners >>= firstSigner)
  let _ ← await env.getBalance
  await (env.getContractFactory "PrivateVotingSystem".toList)
  await env.deploy
  await env.waitForDeployment
  let contractAddress ← await env.getAddress
  let deployedAt := toISOString env.now
  let blockNumber ← await env.getBlockNumber
  let info := deploymentInfo contractAddress deployer.address deployedAt blockNumber
  if !(← existsSync deploymentsDir) then
    mkdirSync deploymentsDir
  writeFileSync recordPath (jsonStringify info)
  await (env.confirmations 5)

/-- A run of the script. -/
def run (env : Chain) (fs : FS) : DeployOutcome := exitWith (main env) fs

end DeployPrivateVotingOriginal

namespace DeployPublicVoting

/-- The array `products` (lines 21 to 38): names and descriptions. -/
def products : List (String × String) :=
  [("MetaMask Wallet Extension",
    "Browser extension for Ethereum wallet management and Web3 application interaction"),
   ("Uniswap DEX Platform",
    "Decentralized exchange for swapping cryptocurrencies with automated market makers"),
   ("OpenSea NFT Marketplace",
    "Leading marketplace for buying, selling, and creating NFTs on multiple blockchains"),
   ("Chainlink Oracle Network",
    "Decentralized oracle network providing real-world data to smart contracts")]

/-- The loop of lines 40 to 44: one transaction per product, each awaited and then
waited for, in order. -/
def createProducts (env : Chain) : List (String × String) → Script Unit
  | [] => pure ()
  | p :: ps => do
    await (env.createProduct p.1.toList p.2.toList)
    await (env.txWait p.1.toList)
    createProducts env ps

/-- The object `deploymentInfo` (lines 47 to 54). -/
def deploymentInfo (contractAddress deployerAddress deployedAt : Text) (blockNumber : Nat) :
    List (String × JVal) :=
  [("contractAddress", .str contractAddress),
   ("deployerAddress", .str deployerAddress),
   ("network", .str "sepolia".toList),
   ("deployedAt", .str deployedAt),
   ("blockNumber", .num blockNumber),
   ("productCount", .num products.length)]

/-- The path of the record file (line 65). -/
def recordPath : Text := deploymentsDir ++ "/sepolia-public-voting.json".toList

/-- The function `main` of `scripts/deploy-public-voting.js`. -/
def main (env : Chain) : Script Unit := do
  let deployer ← await (env.getSigners >>= firstSigner)
  let _ ← await env.getBalance
  await (env.getContractFactory "PublicVotingSystem".toList)
  await env.deploy
  await env.waitForDeployment
  let contractAddress ← await env.getAddress
  createProducts env products
  let deployedAt := toISOString env.now
  let blockNumber ← await env.getBlockNumber
  let info := deploymentInfo contractAddress deployer.address deployedAt blockNumber
  if !(← existsSync deploymentsDir) then
    mkdirSync deploymentsDir
  writeFileSync recordPath (jsonStringify info)
  await (env.confirmations 5)

/-- A run of the script. -/
def run (env : Chain) (fs : FS) : DeployOutcome := exitWith (main env) fs

end DeployPublicVoting

/-! ## Sample inputs -/

/-- A network on which every call succeeds, read at 2023-11-14T22:13:20Z. -/
def sampleChain : Chain where
  getSigners := .ok [⟨"0xf39Fd6e51aad88F6F4ce6aB8827279cffFb92266".toList⟩]
  getBalance := .ok 10000000000000000000000
  getContractFactory := fun _ => .ok ()
  deploy := .ok ()
  waitForDeployment := .ok ()
  getAddress := .ok "0x5FbDB2315678afecb367f032d93F642f64180aa3".toList
  createProduct := fun _ _ => .ok ()
  txWait := fun _ => .ok ()
  getBlockNumber := .ok 1
  confirmations := fun _ => .ok ()
  now := 1700000000000

/-- A file system without a `deployments` directory. -/
def emptyFS : FS := ⟨[], []⟩

/-! ## Lemmas on the pattern matcher -/

theorem repExact_eq_some (p : Char → Bool) (k : Nat → Text → Option Text) (r : Text) :
    ∀ (n i : Nat) (s : Text), repExact p k n i s = some r ↔
      ∃ xs t, s = xs ++ t ∧ xs.length = n ∧ (∀ c ∈ xs, p c = true) ∧ k (i + n) t = some r := by
  intro n
  induction n with
  | zero =>
    intro i s
    constructor
    · intro h
      exact ⟨[], s, rfl, rfl, by simp, by simpa [repExact] using h⟩
    · rintro ⟨xs, t, rfl, hlen, -, hk⟩
      have : xs = [] := List.length_eq_zero.mp hlen
      subst this
      simpa [repExact] using hk
  | succ n ih =>
    intro i s
    cases s with
    | nil =>
      simp only [repExact]
      constructor
      · intro h; cases h
      · rintro ⟨xs, t, h, hlen, -, -⟩
        have : xs = [] := by
          cases xs with
          | nil => rfl
          | cons => simp at h
        subst this
        simp at hlen
    | cons c s =>
      simp only [repExact]
      by_cases hc : p c = true
      · rw [if_pos hc, ih]
        constructor
        · rintro ⟨xs, t, rfl, hlen, hall, hk⟩
          refine ⟨c :: xs, t, rfl, by simp [hlen], ?_, ?_⟩
          · intro d hd
            rcases List.mem_cons.mp hd with rfl | hd
            · exact hc
            · exact hall d hd
          · rw [← hk]; congr 1; omega
        · rintro ⟨xs, t, h, hlen, hall, hk⟩
          cases xs with
          | nil => simp at hlen
          | cons d xs =>
            simp only [List.cons_append, List.cons.injEq] at h
            obtain ⟨rfl, rfl⟩ := h
            refine ⟨xs, t, rfl, by simpa using hlen, fun e he => hall e (List.mem_cons_of_mem _ he), ?_⟩
            rw [← hk]; congr 1; omega
      · rw [if_neg hc]
        constructor
        · intro h; cases h
        · rintro ⟨xs, t, h, hlen, hall, -⟩
          cases xs with
          | nil => simp at hlen
          | cons d xs =>
            simp only [List.cons_append, List.cons.injEq] at h
            obtain ⟨rfl, rfl⟩ := h
            exact absurd (hall c (List.mem_cons_self _ _)) hc

theorem matchHere_one_nil (a : Atom) (ts : List Term) (i : Nat) :
    matchHere (Term.one a :: ts) i [] = none := by
  simp [matchHere]

theorem matchHere_chr_cons (d : Char) (ts : List Term) (i : Nat) (c : Char) (s : Text) :
    matchHere (Term.one (Atom.chr d) :: ts) i (c :: s) =
      if c = d then matchHere ts (i + 1) s else none := by
  simp [matchHere, Atom.test]

theorem execFrom_bol_pos (ts : List Term) :
    ∀ (s : Text) (i : Nat), 0 < i → execFrom (Term.bol :: ts) i s = none := by
  intro s
  induction s with
  | nil =>
    intro i hi
    have hne : i ≠ 0 := by omega
    simp [execFrom, matchAt, matchHere, hne]
  | cons c s ih =>
    intro i hi
    have hne : i ≠ 0 := by omega
    simp [execFrom, matchAt, matchHere, hne, ih (i + 1) (by omega)]

theorem reTest_bol (ts : List Term) (s : Text) :
    reTest (Term.bol :: ts) s = (matchHere (Term.bol :: ts) 0 s).isSome := by
  unfold reTest
  cases s with
  | nil => simp [execFrom, matchAt]
  | cons c s =>
    simp only [execFrom, matchAt]
    cases h : matchHere (Term.bol :: ts) 0 (c :: s) with
    | some r => simp
    | none => simp [execFrom_bol_pos ts s 1 (by omega)]

/-- The twenty-two hexadecimal digits. -/
theorem hexClass_test (c : Char) :
    CharClass.test ⟨false, [('a', 'f'), ('A', 'F'), ('0', '9')]⟩ c = true ↔
      c ∈ "0123456789abcdefABCDEF".toList := by
  have hc : c = Char.ofNat c.toNat := (Char.ofNat_toNat c).symm
  constructor
  · intro h
    simp only [CharClass.test, List.any_cons, List.any_nil, Bool.false_xor, Bool.or_false,
      Bool.or_eq_true, Bool.and_eq_true, decide_eq_true_eq] at h
    rcases h with ⟨h1, h2⟩ | ⟨h1, h2⟩ | ⟨h1, h2⟩
    · have h1' : 97 ≤ c.toNat := h1
      have h2' : c.toNat ≤ 102 := h2
      rw [hc]
      interval_cases c.toNat <;> decide
    · have h1' : 65 ≤ c.toNat := h1
      have h2' : c.toNat ≤ 70 := h2
      rw [hc]
      interval_cases c.toNat <;> decide
    · have h1' : 48 ≤ c.toNat := h1
      have h2' : c.toNat ≤ 57 := h2
      rw [hc]
      interval_cases c.toNat <;> decide
  · intro h
    have h' : c ∈ ['0', '1', '2', '3', '4', '5', '6', '7', '8', '9', 'a', 'b', 'c', 'd', 'e', 'f',
        'A', 'B', 'C', 'D', 'E', 'F'] := h
    simp only [List.mem_cons, List.mem_singleton, List.not_mem_nil, or_false] at h'
    rcases h' with h | h | h | h | h | h | h | h | h | h | h | h | h | h | h | h | h | h | h | h | h | h <;>
      subst h <;> decide

theorem addressRe_match (s : Text) :
    reTest UpdateConfigPrivateVoting.addressRe s = true ↔
      ∃ xs, s = '0' :: 'x' :: xs ∧ xs.length = 40 ∧
        ∀ c ∈ xs, c ∈ "0123456789abcdefABCDEF".toList := by
  unfold UpdateConfigPrivateVoting.addressRe
  rw [reTest_bol, Option.isSome_iff_exists]
  have hbol : ∀ ts (t : Text), matchHere (Term.bol :: ts) 0 t = matchHere ts 0 t := by
    intro ts t; simp [matchHere]
  rw [hbol]
  constructor
  · rintro ⟨r, hr⟩
    rcases s with _ | ⟨c0, _ | ⟨c1, s⟩⟩
    · simp [matchHere_one_nil] at hr
    · rw [matchHere_chr_cons] at hr
      split at hr
      · simp [matchHere_one_nil] at hr
      · cases hr
    · rw [matchHere_chr_cons] at hr
      split at hr
      next h0 =>
        rw [matchHere_chr_cons] at hr
        split at hr
        next h1 =>
          simp only [matchHere] at hr
          rw [repExact_eq_some] at hr
          obtain ⟨xs, t, rfl, hlen, hall, hk⟩ := hr
          have ht : t = [] := by
            by_contra h
            simp [h] at hk
          subst ht
          exact ⟨xs, by simp [h0, h1], hlen, fun c hc => (hexClass_test c).mp (hall c hc)⟩
        · cases hr
      · cases hr
  · rintro ⟨xs, rfl, hlen, hall⟩
    refine ⟨[], ?_⟩
    rw [matchHere_chr_cons, if_pos rfl, matchHere_chr_cons, if_pos rfl]
    simp only [matchHere]
    rw [repExact_eq_some]
    exact ⟨xs, [], by simp, hlen, fun c hc => (hexClass_test c).mpr (hall c hc), by simp⟩

theorem matchHere_literal_aux (ts : List Term) (r : Text) :
    ∀ (l : Text) (i : Nat) (s : Text),
      matchHere (l.map (fun c => Term.one (Atom.chr c)) ++ ts) i s = some r ↔
        ∃ t, s = l ++ t ∧ matchHere ts (i + l.length) t = some r := by
  intro l
  induction l with
  | nil => intro i s; simp
  | cons d l ih =>
    intro i s
    cases s with
    | nil => simp [matchHere_one_nil]
    | cons c s =>
      simp only [List.map_cons, List.cons_append, matchHere_chr_cons]
      by_cases hcd : c = d
      · subst hcd
        rw [if_pos rfl, ih]
        constructor
        · rintro ⟨t, rfl, ht⟩
          refine ⟨t, rfl, ?_⟩
          rw [← ht]; congr 1; simp; omega
        · rintro ⟨t, ht, hm⟩
          simp only [List.cons.injEq, true_and] at ht
          refine ⟨t, ht, ?_⟩
          rw [← hm]; congr 1; simp; omega
      · rw [if_neg hcd]
        constructor
        · intro h; cases h
        · rintro ⟨t, ht, -⟩
          simp only [List.cons.injEq] at ht
          exact absurd ht.1 hcd

theorem notQuote_test (c : Char) :
    (Atom.cls ⟨true, [(squote, squote)]⟩).test c = true ↔ c ≠ squote := by
  simp only [Atom.test, CharClass.test, List.any_cons, List.any_nil, Bool.or_false, Bool.true_xor,
    Bool.not_eq_true', Bool.and_eq_false_iff, decide_eq_false_iff_not]
  constructor
  · rintro h rfl
    rcases h with h | h <;> exact h (le_refl _)
  · intro h
    by_contra hcon
    push_neg at hcon
    exact h (le_antisymm hcon.2 hcon.1)

theorem mem_split_first {q : Char} :
    ∀ (t : Text), q ∈ t → ∃ body r, t = body ++ q :: r ∧ q ∉ body := by
  intro t
  induction t with
  | nil => intro h; simp at h
  | cons c t ih =>
    intro h
    by_cases hc : c = q
    · exact ⟨[], t, by simp [hc], by simp⟩
    · have ht : q ∈ t := by
        rcases List.mem_cons.mp h with h | h
        · exact absurd h.symm hc
        · exact h
      obtain ⟨body, r, rfl, hb⟩ := ih ht
      refine ⟨c :: body, r, rfl, ?_⟩
      intro hmem
      rcases List.mem_cons.mp hmem with h | h
      · exact hc h.symm
      · exact hb h

theorem starGreedy_quote (r : Text) :
    ∀ (s : Text) (i : Nat),
      starGreedy (Atom.cls ⟨true, [(squote, squote)]⟩).test
          (matchHere [Term.one (Atom.chr squote)]) i s = some r ↔
        ∃ body, s = body ++ squote :: r ∧ squote ∉ body := by
  intro s
  induction s with
  | nil => intro i; simp [starGreedy, matchHere_one_nil]
  | cons c s ih =>
    intro i
    by_cases hc : c = squote
    · subst hc
      have hp : ¬ (Atom.cls ⟨true, [(squote, squote)]⟩).test squote = true := by
        rw [notQuote_test]; simp
      have hk : matchHere [Term.one (Atom.chr squote)] i (squote :: s) = some s := by
        rw [matchHere_chr_cons, if_pos rfl]; simp [matchHere]
      simp only [starGreedy, if_neg hp, hk, Option.some.injEq]
      constructor
      · rintro rfl
        exact ⟨[], rfl, by simp⟩
      · rintro ⟨body, hb, hnot⟩
        cases body with
        | nil => simpa using hb
        | cons b body =>
          simp only [List.cons_append, List.cons.injEq] at hb
          exact absurd (hb.1 ▸ List.mem_cons_self _ _) hnot
    · have hp : (Atom.cls ⟨true, [(squote, squote)]⟩).test c = true := (notQuote_test c).mpr hc
      have hk : matchHere [Term.one (Atom.chr squote)] i (c :: s) = none := by
        rw [matchHere_chr_cons, if_neg hc]
      simp only [starGreedy, if_pos hp, hk]
      have hstep : (match starGreedy (Atom.cls ⟨true, [(squote, squote)]⟩).test
            (matchHere [Term.one (Atom.chr squote)]) (i + 1) s with
          | some r => some r
          | none => none) = starGreedy (Atom.cls ⟨true, [(squote, squote)]⟩).test
            (matchHere [Term.one (Atom.chr squote)]) (i + 1) s := by
        cases starGreedy (Atom.cls ⟨true, [(squote, squote)]⟩).test
            (matchHere [Term.one (Atom.chr squote)]) (i + 1) s <;> rfl
      rw [hstep, ih]
      constructor
      · rintro ⟨body, rfl, hb⟩
        refine ⟨c :: body, rfl, ?_⟩
        intro hmem
        rcases List.mem_cons.mp hmem with h | h
        · exact hc h.symm
        · exact hb h
      · rintro ⟨body, hb, hnot⟩
        cases body with
        | nil =>
          simp only [List.nil_append, List.cons.injEq] at hb
          exact absurd hb.1 hc
        | cons b body =>
          simp only [List.cons_append, List.cons.injEq] at hb
          exact ⟨body, hb.2, fun h => hnot (List.mem_cons_of_mem _ h)⟩

/-- The matches of `/PRIVATE_VOTING: '[^']*'/` at a given index. -/
theorem privateVotingRe_match (i : Nat) (s r : Text) :
    matchHere UpdateConfigPrivateVoting.privateVotingRe i s = some r ↔
      ∃ body, s = "PRIVATE_VOTING: '".toList ++ body ++ squote :: r ∧ squote ∉ body := by
  unfold UpdateConfigPrivateVoting.privateVotingRe literal
  rw [matchHere_literal_aux]
  simp only [matchHere]
  constructor
  · rintro ⟨t, rfl, ht⟩
    obtain ⟨body, rfl, hb⟩ := (starGreedy_quote r t _).mp ht
    exact ⟨body, by simp, hb⟩
  · rintro ⟨body, rfl, hb⟩
    exact ⟨body ++ squote :: r, by simp, (starGreedy_quote r _ _).mpr ⟨body, rfl, hb⟩⟩

/-! ## Lemmas on `replace` -/

theorem getSubstitution_literal (m : Match) :
    ∀ (tpl : Text), '$' ∉ tpl → getSubstitution m tpl = tpl := by
  intro tpl
  induction tpl with
  | nil => intro _; rfl
  | cons c t ih =>
    intro h
    have hc : c ≠ '$' := fun hc => h (hc ▸ List.mem_cons_self _ _)
    have ht : '$' ∉ t := fun ht => h (List.mem_cons_of_mem _ ht)
    cases t with
    | nil => rfl
    | cons d t =>
      rw [getSubstitution, if_neg hc, ih ht]

theorem address_chars (a : Text) (ha : reTest UpdateConfigPrivateVoting.addressRe a = true) :
    a.length = 42 ∧ ∀ c ∈ a, c ∈ "0123456789abcdefABCDEFx".toList := by
  obtain ⟨xs, rfl, hlen, hall⟩ := (addressRe_match a).mp ha
  refine ⟨by simp [hlen], ?_⟩
  intro c hc
  rcases List.mem_cons.mp hc with rfl | hc
  · decide
  rcases List.mem_cons.mp hc with rfl | hc
  · decide
  have h := hall c hc
  have hsub : ∀ x ∈ "0123456789abcdefABCDEF".toList, x ∈ "0123456789abcdefABCDEFx".toList := by
    decide
  exact hsub c h

theorem address_no_quote (a : Text) (ha : reTest UpdateConfigPrivateVoting.addressRe a = true) :
    squote ∉ a := by
  intro h
  have := (address_chars a ha).2 _ h
  revert this
  decide

theorem address_no_dollar (a : Text) (ha : reTest UpdateConfigPrivateVoting.addressRe a = true) :
    '$' ∉ a := by
  intro h
  have := (address_chars a ha).2 _ h
  revert this
  decide

namespace UpdateConfigPrivateVoting

theorem replacement_no_dollar (a : Text) (ha : '$' ∉ a) : '$' ∉ replacement a := by
  unfold replacement
  intro h
  rcases List.mem_append.mp h with h | h
  · rcases List.mem_append.mp h with h | h
    · revert h; decide
    · exact ha h
  · revert h; decide

theorem matchHere_index (i j : Nat) (s : Text) :
    matchHere privateVotingRe i s = matchHere privateVotingRe j s := by
  apply Option.ext
  intro r
  show matchHere privateVotingRe i s = some r ↔ matchHere privateVotingRe j s = some r
  rw [privateVotingRe_match, privateVotingRe_match]

theorem execFrom_index : ∀ (s : Text) (i j : Nat),
    execFrom privateVotingRe i s = execFrom privateVotingRe j s := by
  intro s
  induction s with
  | nil => intro i j; simp [execFrom, matchAt, matchHere_index i j]
  | cons c s ih =>
    intro i j
    simp only [execFrom, matchAt, matchHere_index i j, ih (i + 1) (j + 1)]

theorem matchHere_nil (i : Nat) : matchHere privateVotingRe i [] = none := by
  cases h : matchHere privateVotingRe i [] with
  | none => rfl
  | some r =>
    obtain ⟨body, hb, -⟩ := (privateVotingRe_match i [] r).mp h
    have := congrArg List.length hb
    simp at this

theorem updatedContent_nil (a : Text) : updatedContent a [] = [] := by
  simp [updatedContent, replaceRegExp, execFrom, matchAt, matchHere_nil]

theorem updatedContent_hit (a x r : Text) (ha : '$' ∉ a)
    (h : matchHere privateVotingRe 0 x = some r) :
    updatedContent a x = "PRIVATE_VOTING: '".toList ++ a ++ squote :: r := by
  have hx : ∃ m, execFrom privateVotingRe 0 x = some m ∧ m.before = [] ∧ m.after = r := by
    cases x with
    | nil => rw [matchHere_nil] at h; cases h
    | cons c s => exact ⟨_, by simp only [execFrom, matchAt, h, Option.map_some']; rfl, rfl, rfl⟩
  obtain ⟨m, hm, hb, haf⟩ := hx
  simp only [updatedContent, replaceRegExp, hm]
  rw [getSubstitution_literal m _ (replacement_no_dollar a ha), hb, haf]
  simp [replacement]
  rfl

theorem updatedContent_miss (a : Text) (c : Char) (s : Text) (ha : '$' ∉ a)
    (h : matchHere privateVotingRe 0 (c :: s) = none) :
    updatedContent a (c :: s) = c :: updatedContent a s := by
  simp only [updatedContent, replaceRegExp, execFrom, matchAt, h, Option.map_none']
  rw [execFrom_index s (0 + 1) 0]
  cases hs : execFrom privateVotingRe 0 s with
  | none => simp
  | some m =>
    simp only [Option.map_some']
    rw [getSubstitution_literal _ _ (replacement_no_dollar a ha),
      getSubstitution_literal _ _ (replacement_no_dollar a ha)]
    simp

/-- The shape of the result: unchanged, or the first field rewritten. -/
theorem updatedContent_shape (a : Text) (ha : '$' ∉ a) : ∀ (s : Text),
    updatedContent a s = s ∨
      ∃ pre body post, s = pre ++ "PRIVATE_VOTING: '".toList ++ body ++ squote :: post ∧
        squote ∉ body ∧
        updatedContent a s = pre ++ "PRIVATE_VOTING: '".toList ++ a ++ squote :: post := by
  intro s
  induction s with
  | nil => left; exact updatedContent_nil a
  | cons c s ih =>
    cases h : matchHere privateVotingRe 0 (c :: s) with
    | some r =>
      right
      obtain ⟨body, hb, hnot⟩ := (privateVotingRe_match 0 _ r).mp h
      exact ⟨[], body, r, by simpa using hb, hnot, by simpa using updatedContent_hit a _ r ha h⟩
    | none =>
      rw [updatedContent_miss a c s ha h]
      rcases ih with ih | ⟨pre, body, post, hs, hnot, hu⟩
      · left; rw [ih]
      · right
        exact ⟨c :: pre, body, post, by simp [hs], hnot, by simp [hu]⟩

theorem append_transfer {α : Type} (P L A t : List α) (h : P ++ L ++ A = L ++ t) :
    ∃ u, t = u ++ A ∧ P ++ L = L ++ u := by
  rcases List.append_eq_append_iff.mp h with ⟨a', h1, h2⟩ | ⟨c', h1, h2⟩
  · have hlen := congrArg List.length h1
    simp only [List.length_append] at hlen
    have hP : P = [] := List.length_eq_zero.mp (by omega)
    have ha' : a' = [] := List.length_eq_zero.mp (by omega)
    subst hP ha'
    exact ⟨[], by simpa using h2.symm, by simp⟩
  · exact ⟨c', h2, h1⟩

theorem matchHere_miss_updated (a : Text) (c : Char) (s : Text) (ha : '$' ∉ a)
    (h : matchHere privateVotingRe 0 (c :: s) = none) :
    matchHere privateVotingRe 0 (c :: updatedContent a s) = none := by
  rcases updatedContent_shape a ha s with hu | ⟨pre, body, post, hs, hnot, hu⟩
  · rw [hu]; exact h
  · cases h' : matchHere privateVotingRe 0 (c :: updatedContent a s) with
    | none => rfl
    | some r =>
      exfalso
      obtain ⟨body', hb', -⟩ := (privateVotingRe_match 0 _ r).mp h'
      rw [hu] at hb'
      have e1 : (c :: pre) ++ "PRIVATE_VOTING: '".toList ++ (a ++ squote :: post) =
          "PRIVATE_VOTING: '".toList ++ (body' ++ squote :: r) := by
        simpa using hb'
      obtain ⟨u, -, hu2⟩ := append_transfer _ _ _ _ e1
      have e2 : c :: s = "PRIVATE_VOTING: '".toList ++ (u ++ body ++ squote :: post) := by
        rw [hs]
        have : c :: (pre ++ "PRIVATE_VOTING: '".toList ++ body ++ squote :: post)
            = ((c :: pre) ++ "PRIVATE_VOTING: '".toList) ++ (body ++ squote :: post) := by simp
        rw [this, hu2]; simp
      have hq : squote ∈ u ++ body ++ squote :: post := by simp
      obtain ⟨b2, r2, hsplit, hb2⟩ := mem_split_first _ hq
      have : matchHere privateVotingRe 0 (c :: s) = some r2 := by
        rw [privateVotingRe_match]
        exact ⟨b2, by rw [e2, hsplit]; simp, hb2⟩
      rw [h] at this
      cases this

/-- Synchronizing `a` and then `b` is synchronizing `b`. -/
theorem updatedContent_absorb (a b : Text) (ha : '$' ∉ a) (hqa : squote ∉ a) (hb : '$' ∉ b) :
    ∀ (d : Text), updatedContent b (updatedContent a d) = updatedContent b d := by
  intro d
  induction d with
  | nil => rw [updatedContent_nil, updatedContent_nil]
  | cons c s ih =>
    cases h : matchHere privateVotingRe 0 (c :: s) with
    | some r =>
      rw [updatedContent_hit a _ r ha h, updatedContent_hit b _ r hb h]
      apply updatedContent_hit b _ r hb
      rw [privateVotingRe_match]
      exact ⟨a, by simp, hqa⟩
    | none =>
      rw [updatedContent_miss a c s ha h, updatedContent_miss b c s hb h,
        updatedContent_miss b c _ hb (matchHere_miss_updated a c s ha h), ih]

/-- The leftmost match is the one rewritten. -/
theorem updatedContent_leftmost (a : Text) (ha : '$' ∉ a) :
    ∀ (pre d body post : Text),
      d = pre ++ "PRIVATE_VOTING: '".toList ++ body ++ squote :: post → squote ∉ body →
      (∀ pre' body' post', d = pre' ++ "PRIVATE_VOTING: '".toList ++ body' ++ squote :: post' →
        squote ∉ body' → pre.length ≤ pre'.length) →
      updatedContent a d = pre ++ "PRIVATE_VOTING: '".toList ++ a ++ squote :: post := by
  intro pre
  induction pre with
  | nil =>
    intro d body post hd hb _
    have := updatedContent_hit a d post ha
      ((privateVotingRe_match 0 d post).mpr ⟨body, by simpa using hd, hb⟩)
    simpa using this
  | cons c pre ih =>
    intro d body post hd hb hleft
    subst hd
    have hmiss : matchHere privateVotingRe 0
        (c :: (pre ++ "PRIVATE_VOTING: '".toList ++ body ++ squote :: post)) = none := by
      cases h : matchHere privateVotingRe 0
        (c :: (pre ++ "PRIVATE_VOTING: '".toList ++ body ++ squote :: post)) with
      | none => rfl
      | some r =>
        exfalso
        obtain ⟨body', hb', hnot'⟩ := (privateVotingRe_match 0 _ r).mp h
        have := hleft [] body' r (by simpa using hb') hnot'
        simp at this
    have e : (c :: pre) ++ "PRIVATE_VOTING: '".toList ++ body ++ squote :: post =
        c :: (pre ++ "PRIVATE_VOTING: '".toList ++ body ++ squote :: post) := by simp
    rw [e, updatedContent_miss a c _ ha hmiss, ih _ body post rfl hb]
    · simp
    · intro pre' body' post' hd' hnot'
      have := hleft (c :: pre') body' post' (by rw [e, hd']; simp) hnot'
      simpa using this

/-- Without a match the text is returned as it is. -/
theorem updatedContent_no_match (a : Text) (ha : '$' ∉ a) :
    ∀ (d : Text),
      (¬ ∃ pre body post, d = pre ++ "PRIVATE_VOTING: '".toList ++ body ++ squote :: post ∧
        squote ∉ body) →
      updatedContent a d = d := by
  intro d
  induction d with
  | nil => intro _; exact updatedContent_nil a
  | cons c s ih =>
    intro hno
    have hmiss : matchHere privateVotingRe 0 (c :: s) = none := by
      cases h : matchHere privateVotingRe 0 (c :: s) with
      | none => rfl
      | some r =>
        exfalso
        obtain ⟨body', hb', hnot'⟩ := (privateVotingRe_match 0 _ r).mp h
        exact hno ⟨[], body', r, by simpa using hb', hnot'⟩
    rw [updatedContent_miss a c s ha hmiss, ih]
    rintro ⟨pre, body, post, hs, hb⟩
    exact hno ⟨c :: pre, body, post, by simp [hs], hb⟩

end UpdateConfigPrivateVoting

/-! ## The config synchronizer `update-config-private-voting.cjs` -/

/-- C1: the address-format check `/^0x[a-fA-F0-9]{40}$/` accepts a string if and only if
it is exactly 42 characters long, starts with `0x`, and each of its other 40 characters
is one of `0-9`, `a-f`, `A-F`; every other string is rejected. -/
theorem C1_address_format_check (s : Text) :
    reTest UpdateConfigPrivateVoting.addressRe s = true ↔
      s.length = 42 ∧ s.take 2 = ['0', 'x'] ∧
        ∀ c ∈ s.drop 2, c ∈ "0123456789abcdefABCDEF".toList := by
  rw [addressRe_match]
  constructor
  · rintro ⟨xs, rfl, hlen, hall⟩
    exact ⟨by simp [hlen], by simp, by simpa using hall⟩
  · rintro ⟨hlen, htake, hall⟩
    refine ⟨s.drop 2, ?_, by simp [hlen], hall⟩
    conv_lhs => rw [← List.take_append_drop 2 s]
    rw [htake]
    rfl

/-- The synchronizer evaluated on the repository's configuration document. -/
theorem updatedContent_configJs :
    UpdateConfigPrivateVoting.updatedContent
        "0x1234567890123456789012345678901234567890".toList configJs =
      unlines (configLines.set 15
        "        PRIVATE_VOTING: '0x1234567890123456789012345678901234567890' // PrivateVotingSystem FHE contract") := by
  rfl

/-- C2: for a valid address `a`, `updatePrivateVotingAddress` changes only the targeted
field: when `d = pre ++ m ++ post` with `m` the leftmost match of
`PRIVATE_VOTING: '[^']*'` (its body free of single quotes), the written text is
`pre ++ "PRIVATE_VOTING: '" ++ a ++ "'" ++ post`; when `d` has no match, the written text
is `d`; and on `frontend/public/config.js` with
`a = 0x1234567890123456789012345678901234567890` only line 16 changes, its address
becoming `a` and its trailing comment staying. -/
theorem C2_only_target_field_changes (a d : Text)
    (ha : reTest UpdateConfigPrivateVoting.addressRe a = true) :
    (∀ pre body post : Text,
      d = pre ++ "PRIVATE_VOTING: '".toList ++ body ++ squote :: post → squote ∉ body →
      (∀ pre' body' post' : Text,
        d = pre' ++ "PRIVATE_VOTING: '".toList ++ body' ++ squote :: post' →
        squote ∉ body' → pre.length ≤ pre'.length) →
      UpdateConfigPrivateVoting.updatePrivateVotingAddress a (some d) =
        some (pre ++ "PRIVATE_VOTING: '".toList ++ a ++ squote :: post,
          [pre ++ "PRIVATE_VOTING: '".toList ++ a ++ squote :: post])) ∧
    ((¬ ∃ pre body post : Text,
        d = pre ++ "PRIVATE_VOTING: '".toList ++ body ++ squote :: post ∧ squote ∉ body) →
      UpdateConfigPrivateVoting.updatePrivateVotingAddress a (some d) = some (d, [d])) ∧
    (a = "0x1234567890123456789012345678901234567890".toList → d = configJs →
      UpdateConfigPrivateVoting.updatePrivateVotingAddress a (some d) =
        some (unlines (configLines.set 15
          "        PRIVATE_VOTING: '0x1234567890123456789012345678901234567890' // PrivateVotingSystem FHE contract"),
          [unlines (configLines.set 15
          "        PRIVATE_VOTING: '0x1234567890123456789012345678901234567890' // PrivateVotingSystem FHE contract")])) := by
  have hd := address_no_dollar a ha
  refine ⟨?_, ?_, ?_⟩
  · intro pre body post hsplit hb hleft
    simp only [UpdateConfigPrivateVoting.updatePrivateVotingAddress]
    rw [UpdateConfigPrivateVoting.updatedContent_leftmost a hd pre d body post hsplit hb hleft]
  · intro hno
    simp only [UpdateConfigPrivateVoting.updatePrivateVotingAddress]
    rw [UpdateConfigPrivateVoting.updatedContent_no_match a hd d hno]
  · rintro rfl rfl
    simp only [UpdateConfigPrivateVoting.updatePrivateVotingAddress]
    rw [updatedContent_configJs]

/-- C2 at the repository's own configuration document. -/
theorem C2_only_target_field_changes_witness :
    reTest UpdateConfigPrivateVoting.addressRe
        "0x1234567890123456789012345678901234567890".toList = true ∧
      UpdateConfigPrivateVoting.updatePrivateVotingAddress
          "0x1234567890123456789012345678901234567890".toList (some configJs) =
        some (unlines (configLines.set 15
          "        PRIVATE_VOTING: '0x1234567890123456789012345678901234567890' // PrivateVotingSystem FHE contract"),
          [unlines (configLines.set 15
          "        PRIVATE_VOTING: '0x1234567890123456789012345678901234567890' // PrivateVotingSystem FHE contract")]) :=
  ⟨by decide, (C2_only_target_field_changes _ _ (by decide)).2.2 rfl rfl⟩

/-- C3: config-sync idempotence of `updatePrivateVotingAddress`: for every text `d` and
every valid address `a`, a second run with `a` writes the file the first run wrote. -/
theorem C3_sync_idempotent (a d : Text)
    (ha : reTest UpdateConfigPrivateVoting.addressRe a = true) :
    ∃ d1 : Text,
      UpdateConfigPrivateVoting.updatePrivateVotingAddress a (some d) = some (d1, [d1]) ∧
      UpdateConfigPrivateVoting.updatePrivateVotingAddress a (some d1) = some (d1, [d1]) := by
  refine ⟨UpdateConfigPrivateVoting.updatedContent a d, rfl, ?_⟩
  simp only [UpdateConfigPrivateVoting.updatePrivateVotingAddress]
  rw [UpdateConfigPrivateVoting.updatedContent_absorb a a (address_no_dollar a ha)
    (address_no_quote a ha) (address_no_dollar a ha)]

/-- C3 at the repository's configuration document. -/
theorem C3_sync_idempotent_witness :
    reTest UpdateConfigPrivateVoting.addressRe
        "0x1234567890123456789012345678901234567890".toList = true ∧
    ∃ d1 : Text,
      UpdateConfigPrivateVoting.updatePrivateVotingAddress
        "0x1234567890123456789012345678901234567890".toList (some configJs) = some (d1, [d1]) ∧
      UpdateConfigPrivateVoting.updatePrivateVotingAddress
        "0x1234567890123456789012345678901234567890".toList (some d1) = some (d1, [d1]) :=
  ⟨by decide, C3_sync_idempotent _ _ (by decide)⟩

/-- C4: config-sync isolation of `updatePrivateVotingAddress`: for every text `d` and all
valid addresses `a` and `b`, synchronizing `a` and then `b` writes the file that
synchronizing `b` alone writes; when `d = pre ++ m ++ post` with `m` the leftmost match,
that file is `pre ++ "PRIVATE_VOTING: '" ++ b ++ "'" ++ post`. -/
theorem C4_sync_isolation (a b d : Text)
    (ha : reTest UpdateConfigPrivateVoting.addressRe a = true)
    (hb : reTest UpdateConfigPrivateVoting.addressRe b = true) :
    ∃ d1 d2 : Text,
      UpdateConfigPrivateVoting.updatePrivateVotingAddress a (some d) = some (d1, [d1]) ∧
      UpdateConfigPrivateVoting.updatePrivateVotingAddress b (some d1) = some (d2, [d2]) ∧
      UpdateConfigPrivateVoting.updatePrivateVotingAddress b (some d) = some (d2, [d2]) ∧
      ∀ pre body post : Text,
        d = pre ++ "PRIVATE_VOTING: '".toList ++ body ++ squote :: post → squote ∉ body →
        (∀ pre' body' post' : Text,
          d = pre' ++ "PRIVATE_VOTING: '".toList ++ body' ++ squote :: post' →
          squote ∉ body' → pre.length ≤ pre'.length) →
        d2 = pre ++ "PRIVATE_VOTING: '".toList ++ b ++ squote :: post := by
  have habs := UpdateConfigPrivateVoting.updatedContent_absorb a b (address_no_dollar a ha)
    (address_no_quote a ha) (address_no_dollar b hb) d
  refine ⟨UpdateConfigPrivateVoting.updatedContent a d,
    UpdateConfigPrivateVoting.updatedContent b d, rfl, ?_, rfl, ?_⟩
  · simp only [UpdateConfigPrivateVoting.updatePrivateVotingAddress]
    rw [habs]
  · intro pre body post hsplit hbody hleft
    exact UpdateConfigPrivateVoting.updatedContent_leftmost b (address_no_dollar b hb)
      pre d body post hsplit hbody hleft

/-- C4 at the repository's configuration document. -/
theorem C4_sync_isolation_witness :
    reTest UpdateConfigPrivateVoting.addressRe
        "0xF8976BA463c31f4A0fbD6948Da43a77e74EE4196".toList = true ∧
    reTest UpdateConfigPrivateVoting.addressRe
        "0x1234567890123456789012345678901234567890".toList = true ∧
    ∃ d1 d2 : Text,
      UpdateConfigPrivateVoting.updatePrivateVotingAddress
        "0xF8976BA463c31f4A0fbD6948Da43a77e74EE4196".toList (some configJs) = some (d1, [d1]) ∧
      UpdateConfigPrivateVoting.updatePrivateVotingAddress
        "0x1234567890123456789012345678901234567890".toList (some d1) = some (d2, [d2]) ∧
      UpdateConfigPrivateVoting.updatePrivateVotingAddress
        "0x1234567890123456789012345678901234567890".toList (some configJs) = some (d2, [d2]) ∧
      ∀ pre body post : Text,
        configJs = pre ++ "PRIVATE_VOTING: '".toList ++ body ++ squote :: post → squote ∉ body →
        (∀ pre' body' post' : Text,
          configJs = pre' ++ "PRIVATE_VOTING: '".toList ++ body' ++ squote :: post' →
          squote ∉ body' → pre.length ≤ pre'.length) →
        d2 = pre ++ "PRIVATE_VOTING: '".toList ++
          "0x1234567890123456789012345678901234567890".toList ++ squote :: post :=
  ⟨by decide, by decide, C4_sync_isolation _ _ _ (by decide) (by decide)⟩

/-- C5: the command-line gate of `update-config-private-voting.cjs`: when the positional
argument is absent, empty or fails the address-format check, the run exits with status 1
and the config file is not written; the file is written only when the argument is a valid
address, and then its new content is `updatePrivateVotingAddress` of its old content. -/
theorem C5_command_line_gate (argv : List Text) (file : Option Text) :
    ((argv2 argv = none ∨ argv2 argv = some [] ∨
        ∃ x, argv2 argv = some x ∧ reTest UpdateConfigPrivateVoting.addressRe x = false) →
      UpdateConfigPrivateVoting.main argv file = ⟨1, file, []⟩) ∧
    ((UpdateConfigPrivateVoting.main argv file).written ≠ [] →
      ∃ a d new, argv2 argv = some a ∧
        reTest UpdateConfigPrivateVoting.addressRe a = true ∧ file = some d ∧
        UpdateConfigPrivateVoting.updatePrivateVotingAddress a (some d) = some (new, [new]) ∧
        UpdateConfigPrivateVoting.main argv file = ⟨0, some new, [new]⟩) ∧
    (∀ a d, argv2 argv = some a → reTest UpdateConfigPrivateVoting.addressRe a = true →
      file = some d →
      UpdateConfigPrivateVoting.main argv file =
        ⟨0, some (UpdateConfigPrivateVoting.updatedContent a d),
          [UpdateConfigPrivateVoting.updatedContent a d]⟩) := by
  have hvalid : ∀ a d, argv2 argv = some a →
      reTest UpdateConfigPrivateVoting.addressRe a = true → file = some d →
      UpdateConfigPrivateVoting.main argv file =
        ⟨0, some (UpdateConfigPrivateVoting.updatedContent a d),
          [UpdateConfigPrivateVoting.updatedContent a d]⟩ := by
    intro a d harg ha hfile
    have hne : a ≠ [] := by
      rintro rfl
      revert ha
      decide
    simp [UpdateConfigPrivateVoting.main, harg, hne, ha, hfile,
      UpdateConfigPrivateVoting.updatePrivateVotingAddress]
  refine ⟨?_, ?_, hvalid⟩
  · rintro (h | h | ⟨x, h, hx⟩)
    · simp [UpdateConfigPrivateVoting.main, h]
    · simp [UpdateConfigPrivateVoting.main, h]
    · by_cases hne : x = []
      · simp [UpdateConfigPrivateVoting.main, h, hne]
      · simp [UpdateConfigPrivateVoting.main, h, hne, hx]
  · intro hw
    cases harg : argv2 argv with
    | none => simp [UpdateConfigPrivateVoting.main, harg] at hw
    | some a =>
      by_cases hne : a = []
      · simp [UpdateConfigPrivateVoting.main, harg, hne] at hw
      · cases ha : reTest UpdateConfigPrivateVoting.addressRe a with
        | false => simp [UpdateConfigPrivateVoting.main, harg, hne, ha] at hw
        | true =>
          cases hfile : file with
          | none =>
            simp [UpdateConfigPrivateVoting.main, harg, hne, ha, hfile,
              UpdateConfigPrivateVoting.updatePrivateVotingAddress] at hw
          | some d =>
            exact ⟨a, d, UpdateConfigPrivateVoting.updatedContent a d, rfl, ha, rfl, rfl,
              hfile ▸ hvalid a d harg ha hfile⟩

/-- C5 on three runs: no argument, an address followed by a line feed, a valid address. -/
theorem C5_command_line_gate_witness :
    UpdateConfigPrivateVoting.main ["node".toList, "update-config-private-voting.cjs".toList]
        (some "PRIVATE_VOTING: ''".toList) = ⟨1, some "PRIVATE_VOTING: ''".toList, []⟩ ∧
    UpdateConfigPrivateVoting.main
        ["node".toList, "update-config-private-voting.cjs".toList,
          "0x1234567890123456789012345678901234567890\n".toList]
        (some "PRIVATE_VOTING: ''".toList) = ⟨1, some "PRIVATE_VOTING: ''".toList, []⟩ ∧
    UpdateConfigPrivateVoting.main
        ["node".toList, "update-config-private-voting.cjs".toList,
          "0x1234567890123456789012345678901234567890".toList]
        (some "PRIVATE_VOTING: ''".toList) =
      ⟨0, some "PRIVATE_VOTING: '0x1234567890123456789012345678901234567890'".toList,
        ["PRIVATE_VOTING: '0x1234567890123456789012345678901234567890'".toList]⟩ :=
  ⟨(C5_command_line_gate _ _).1 (Or.inl rfl),
    (C5_command_line_gate _ _).1 (Or.inr (Or.inr ⟨_, rfl, by decide⟩)),
    ((C5_command_line_gate
        ["node".toList, "update-config-private-voting.cjs".toList,
          "0x1234567890123456789012345678901234567890".toList]
        (some "PRIVATE_VOTING: ''".toList)).2.2
      "0x1234567890123456789012345678901234567890".toList "PRIVATE_VOTING: ''".toList
      rfl (by decide) rfl).trans (by decide)⟩

/-! ## Lemmas on the deployers -/

theorem failed_iff {α : Type} (r : Except Err α) : failed r = true ↔ ∃ e, r = Except.error e := by
  cases r <;> simp [failed]

namespace DeployPublicVoting

/-- A failing seed transaction aborts the loop, the files untouched. -/
theorem createProducts_failure (env : Chain) (fs : FS) :
    ∀ (ps : List (String × String)),
      (∃ p ∈ ps, failed (env.createProduct p.1.toList p.2.toList) = true ∨
        failed (env.txWait p.1.toList) = true) →
      ∃ e, createProducts env ps fs = (Except.error e, fs) := by
  intro ps
  induction ps with
  | nil => rintro ⟨p, hp, -⟩; simp at hp
  | cons q ps ih =>
    intro h
    cases hc : env.createProduct q.1.toList q.2.toList with
    | error e => exact ⟨e, by simp only [createProducts, hc]; rfl⟩
    | ok u =>
      cases hw : env.txWait q.1.toList with
      | error e => exact ⟨e, by simp only [createProducts, hc, hw]; rfl⟩
      | ok v =>
        have h' : ∃ p ∈ ps, failed (env.createProduct p.1.toList p.2.toList) = true ∨
            failed (env.txWait p.1.toList) = true := by
          obtain ⟨p, hp, hf⟩ := h
          rcases List.mem_cons.mp hp with rfl | hp
          · rw [hc, hw] at hf
            simp [failed] at hf
          · exact ⟨p, hp, hf⟩
        obtain ⟨e, he⟩ := ih h'
        exact ⟨e, by simp only [createProducts, hc, hw]; exact he⟩

end DeployPublicVoting

/-- A failure up to `getAddress` ends `deploy-private-voting.js` with status 1, the files untouched. -/
theorem private_run_of_early_failure (env : Chain) (fs : FS)
    (h : failed env.getSigners = true ∨ failed env.getBalance = true ∨
      failed (env.getContractFactory "PrivateVotingSystem".toList) = true ∨
      failed env.deploy = true ∨ failed env.waitForDeployment = true ∨
      failed env.getAddress = true) :
    DeployPrivateVoting.run env fs = ⟨1, fs⟩ := by
  unfold DeployPrivateVoting.run DeployPrivateVoting.main exitWith
  cases hs : env.getSigners with
  | error e => rfl
  | ok signers =>
    cases signers with
    | nil => rfl
    | cons deployer others =>
      cases hb : env.getBalance with
      | error e => rfl
      | ok balance =>
        cases hf : env.getContractFactory "PrivateVotingSystem".toList with
        | error e => rfl
        | ok u1 =>
          cases hd : env.deploy with
          | error e => rfl
          | ok u2 =>
            cases hw : env.waitForDeployment with
            | error e => rfl
            | ok u3 =>
              cases ha : env.getAddress with
              | error e => rfl
              | ok contractAddress =>
                rw [hs, hb, hf, hd, hw, ha] at h
                simp [failed] at h

/-- A failure up to `getAddress` ends `deploy-private-voting-original.js` with status 1, the files untouched. -/
theorem original_run_of_early_failure (env : Chain) (fs : FS)
    (h : failed env.getSigners = true ∨ failed env.getBalance = true ∨
      failed (env.getContractFactory "PrivateVotingSystem".toList) = true ∨
      failed env.deploy = true ∨ failed env.waitForDeployment = true ∨
      failed env.getAddress = true) :
    DeployPrivateVotingOriginal.run env fs = ⟨1, fs⟩ := by
  unfold DeployPrivateVotingOriginal.run DeployPrivateVotingOriginal.main exitWith
  cases hs : env.getSigners with
  | error e => rfl
  | ok signers =>
    cases signers with
    | nil => rfl
    | cons deployer others =>
      cases hb : env.getBalance with
      | error e => rfl
      | ok balance =>
        cases hf : env.getContractFactory "PrivateVotingSystem".toList with
        | error e => rfl
        | ok u1 =>
          cases hd : env.deploy with
          | error e => rfl
          | ok u2 =>
            cases hw : env.waitForDeployment with
            | error e => rfl
            | ok u3 =>
              cases ha : env.getAddress with
              | error e => rfl
              | ok contractAddress =>
                rw [hs, hb, hf, hd, hw, ha] at h
                simp [failed] at h

/-- A failure up to `getAddress` ends `deploy-public-voting.js` with status 1, the files untouched. -/
theorem public_run_of_early_failure (env : Chain) (fs : FS)
    (h : failed env.getSigners = true ∨ failed env.getBalance = true ∨
      failed (env.getContractFactory "PublicVotingSystem".toList) = true ∨
      failed env.deploy = true ∨ failed env.waitForDeployment = true ∨
      failed env.getAddress = true) :
    DeployPublicVoting.run env fs = ⟨1, fs⟩ := by
  unfold DeployPublicVoting.run DeployPublicVoting.main exitWith
  cases hs : env.getSigners with
  | error e => rfl
  | ok signers =>
    cases signers with
    | nil => rfl
    | cons deployer others =>
      cases hb : env.getBalance with
      | error e => rfl
      | ok balance =>
        cases hf : env.getContractFactory "PublicVotingSystem".toList with
        | error e => rfl
        | ok u1 =>
          cases hd : env.deploy with
          | error e => rfl
          | ok u2 =>
            cases hw : env.waitForDeployment with
            | error e => rfl
            | ok u3 =>
              cases ha : env.getAddress with
              | error e => rfl
              | ok contractAddress =>
                rw [hs, hb, hf, hd, hw, ha] at h
                simp [failed] at h

/-! ## The deployers -/

/-- C8: deployment-record persistence in `deploy-private-voting.js`: when every call
succeeds, the text written to `deployments/localhost-private-voting.json` is the JSON
serialization of the record with the address returned by `getAddress`, the address of the
first signer, the network `localhost`, the ISO-8601 rendering of the clock reading and the
value returned by `getBlockNumber`; the run exits with status 0. -/
theorem C8_deployment_record (env : Chain) (fs : FS) (deployer : Signer) (others : List Signer)
    (balance blockNumber : Nat) (contractAddress : Text)
    (hSigners : env.getSigners = .ok (deployer :: others))
    (hBalance : env.getBalance = .ok balance)
    (hFactory : env.getContractFactory "PrivateVotingSystem".toList = .ok ())
    (hDeploy : env.deploy = .ok ())
    (hWait : env.waitForDeployment = .ok ())
    (hAddress : env.getAddress = .ok contractAddress)
    (hBlock : env.getBlockNumber = .ok blockNumber)
    (hConfirm : env.confirmations 5 = .ok ()) :
    (DeployPrivateVoting.run env fs).status = 0 ∧
    (DeployPrivateVoting.run env fs).fs.files =
      ("deployments/localhost-private-voting.json".toList,
        jsonStringify
          [("contractAddress", .str contractAddress),
           ("deployerAddress", .str deployer.address),
           ("network", .str "localhost".toList),
           ("deployedAt", .str (toISOString env.now)),
           ("blockNumber", .num blockNumber)]) :: fs.files ∧
    (DeployPrivateVoting.run env fs).fs.read "deployments/localhost-private-voting.json".toList =
      some (jsonStringify
          [("contractAddress", .str contractAddress),
           ("deployerAddress", .str deployer.address),
           ("network", .str "localhost".toList),
           ("deployedAt", .str (toISOString env.now)),
           ("blockNumber", .num blockNumber)]) := by
  have hrun : DeployPrivateVoting.run env fs =
      ⟨0, { dirs := if "deployments".toList ∈ fs.dirs then fs.dirs else "deployments".toList :: fs.dirs,
            files := ("deployments/localhost-private-voting.json".toList,
              jsonStringify
                [("contractAddress", .str contractAddress),
                 ("deployerAddress", .str deployer.address),
                 ("network", .str "localhost".toList),
                 ("deployedAt", .str (toISOString env.now)),
                 ("blockNumber", .num blockNumber)]) :: fs.files }⟩ := by
    unfold DeployPrivateVoting.run DeployPrivateVoting.main exitWith
    simp only [hSigners, hBalance, hFactory, hDeploy, hWait, hAddress, hBlock, hConfirm]
    simp only [bind, Script.bind, await, Except.bind, firstSigner, existsSync, mkdirSync,
      writeFileSync, deploymentsDir, pure, Script.pure,
      DeployPrivateVoting.deploymentInfo, DeployPrivateVoting.recordPath]
    by_cases hdir : "deployments".toList ∈ fs.dirs
    · simp only [hdir, decide_True, Bool.not_true, if_true, Bool.false_eq_true, if_false]
      rfl
    · simp only [hdir, decide_False, Bool.not_false, if_true, Bool.false_eq_true, if_false]
      rfl
  rw [hrun]
  refine ⟨rfl, rfl, ?_⟩
  simp [FS.read]

/-- C8 on a local network: the record as it is written. -/
theorem C8_deployment_record_witness :
    (DeployPrivateVoting.run sampleChain emptyFS).status = 0 ∧
    (DeployPrivateVoting.run sampleChain emptyFS).fs.read
        "deployments/localhost-private-voting.json".toList =
      some ("\x7b\n  \"contractAddress\": \"0x5FbDB2315678afecb367f032d93F642f64180aa3\",\n" ++
        "  \"deployerAddress\": \"0xf39Fd6e51aad88F6F4ce6aB8827279cffFb92266\",\n" ++
        "  \"network\": \"localhost\",\n" ++
        "  \"deployedAt\": \"2023-11-14T22:13:20.000Z\",\n" ++
        "  \"blockNumber\": 1\n\x7d").toList :=
  have h := C8_deployment_record sampleChain emptyFS
    ⟨"0xf39Fd6e51aad88F6F4ce6aB8827279cffFb92266".toList⟩ [] 10000000000000000000000 1
    "0x5FbDB2315678afecb367f032d93F642f64180aa3".toList rfl rfl rfl rfl rfl rfl rfl rfl
  ⟨h.1, h.2.2.trans rfl⟩

/-- C9: record-after-deploy ordering in the three deployment scripts: in every run in
which `getSigners`, `getBalance`, `getContractFactory`, `deploy`, `waitForDeployment` or
`getAddress` fails, the run exits with status 1, no record file is written and the
`deployments` directory is not created. -/
theorem C9_record_only_after_deploy (env : Chain) (fs : FS) :
    ((failed env.getSigners = true ∨ failed env.getBalance = true ∨
        failed (env.getContractFactory "PrivateVotingSystem".toList) = true ∨
        failed env.deploy = true ∨ failed env.waitForDeployment = true ∨
        failed env.getAddress = true) →
      DeployPrivateVoting.run env fs = ⟨1, fs⟩ ∧
      DeployPrivateVotingOriginal.run env fs = ⟨1, fs⟩) ∧
    ((failed env.getSigners = true ∨ failed env.getBalance = true ∨
        failed (env.getContractFactory "PublicVotingSystem".toList) = true ∨
        failed env.deploy = true ∨ failed env.waitForDeployment = true ∨
        failed env.getAddress = true) →
      DeployPublicVoting.run env fs = ⟨1, fs⟩) :=
  ⟨fun h => ⟨private_run_of_early_failure env fs h,
      original_run_of_early_failure env fs h⟩,
    fun h => public_run_of_early_failure env fs h⟩

/-- C9 on a network whose `deploy` call is rejected. -/
theorem C9_record_only_after_deploy_witness :
    failed ({ sampleChain with deploy := .error "reverted" } : Chain).deploy = true ∧
    DeployPrivateVoting.run { sampleChain with deploy := .error "reverted" } emptyFS
      = ⟨1, emptyFS⟩ ∧
    DeployPrivateVotingOriginal.run { sampleChain with deploy := .error "reverted" } emptyFS
      = ⟨1, emptyFS⟩ ∧
    DeployPublicVoting.run { sampleChain with deploy := .error "reverted" } emptyFS
      = ⟨1, emptyFS⟩ :=
  have h := C9_record_only_after_deploy { sampleChain with deploy := .error "reverted" } emptyFS
  ⟨rfl, (h.1 (Or.inr (Or.inr (Or.inr (Or.inl rfl))))).1,
    (h.1 (Or.inr (Or.inr (Or.inr (Or.inl rfl))))).2,
    h.2 (Or.inr (Or.inr (Or.inr (Or.inl rfl))))⟩

namespace DeployPublicVoting

/-- When every seed transaction succeeds the loop returns. -/
theorem createProducts_success (env : Chain) (fs : FS) :
    ∀ (ps : List (String × String)),
      (∀ p ∈ ps, failed (env.createProduct p.1.toList p.2.toList) = false ∧
        failed (env.txWait p.1.toList) = false) →
      createProducts env ps fs = (Except.ok (), fs) := by
  intro ps
  induction ps with
  | nil => intro _; rfl
  | cons q ps ih =>
    intro h
    have hq := h q (List.mem_cons_self _ _)
    cases hc : env.createProduct q.1.toList q.2.toList with
    | error e => rw [hc] at hq; simp [failed] at hq
    | ok u =>
      cases hw : env.txWait q.1.toList with
      | error e => rw [hw] at hq; simp [failed] at hq
      | ok v =>
        simp only [createProducts, hc, hw]
        exact ih fun p hp => h p (List.mem_cons_of_mem _ hp)

/-- A failing seed transaction ends the run with status 1 before any file is written. -/
theorem run_of_seed_failure (env : Chain) (fs : FS)
    (h : ∃ p ∈ products, failed (env.createProduct p.1.toList p.2.toList) = true ∨
      failed (env.txWait p.1.toList) = true) :
    run env fs = ⟨1, fs⟩ := by
  obtain ⟨e, he⟩ := createProducts_failure env fs products h
  unfold run main exitWith
  cases hs : env.getSigners with
  | error e => rfl
  | ok signers =>
    cases signers with
    | nil => rfl
    | cons deployer others =>
      cases hb : env.getBalance with
      | error e => rfl
      | ok balance =>
        cases hf : env.getContractFactory "PublicVotingSystem".toList with
        | error e => rfl
        | ok u1 =>
          cases hd : env.deploy with
          | error e => rfl
          | ok u2 =>
            cases hw : env.waitForDeployment with
            | error e => rfl
            | ok u3 =>
              cases ha : env.getAddress with
              | error e => rfl
              | ok contractAddress =>
                simp only [bind, Script.bind, await, Except.bind, firstSigner, he]

end DeployPublicVoting

/-- C10 as stated fails: in no run of `deploy-public-voting.js` in which the deployment
succeeds and a `createProduct` transaction (or its wait) fails has a file been written. -/
theorem C10_seed_failure_writes_nothing :
    ¬ ∃ (env : Chain) (fs : FS),
      (failed env.getSigners = false ∧ failed env.getBalance = false ∧
        failed (env.getContractFactory "PublicVotingSystem".toList) = false ∧
        failed env.deploy = false ∧ failed env.waitForDeployment = false ∧
        failed env.getAddress = false) ∧
      (∃ p ∈ DeployPublicVoting.products,
        failed (env.createProduct p.1.toList p.2.toList) = true ∨
        failed (env.txWait p.1.toList) = true) ∧
      (DeployPublicVoting.run env fs).status = 1 ∧
      (DeployPublicVoting.run env fs).fs.files ≠ fs.files := by
  rintro ⟨env, fs, -, hseed, -, hfiles⟩
  rw [DeployPublicVoting.run_of_seed_failure env fs hseed] at hfiles
  exact hfiles rfl

/-- C10, amended: in `deploy-public-voting.js` a failing `createProduct` transaction (or
its wait) ends the run with status 1 before anything is written; a failing run leaves the
record written when all calls up to `getBlockNumber` succeed and the wait for five
confirmations fails. -/
theorem C10_inconsistency_window (env : Chain) (fs : FS) :
    ((∃ p ∈ DeployPublicVoting.products,
        failed (env.createProduct p.1.toList p.2.toList) = true ∨
        failed (env.txWait p.1.toList) = true) →
      DeployPublicVoting.run env fs = ⟨1, fs⟩) ∧
    (∀ (deployer : Signer) (others : List Signer) (balance blockNumber : Nat)
        (contractAddress : Text),
      env.getSigners = .ok (deployer :: others) →
      env.getBalance = .ok balance →
      env.getContractFactory "PublicVotingSystem".toList = .ok () →
      env.deploy = .ok () →
      env.waitForDeployment = .ok () →
      env.getAddress = .ok contractAddress →
      (∀ p ∈ DeployPublicVoting.products,
        failed (env.createProduct p.1.toList p.2.toList) = false ∧
        failed (env.txWait p.1.toList) = false) →
      env.getBlockNumber = .ok blockNumber →
      failed (env.confirmations 5) = true →
      (DeployPublicVoting.run env fs).status = 1 ∧
      (DeployPublicVoting.run env fs).fs.files =
        ("deployments/sepolia-public-voting.json".toList,
          jsonStringify
            [("contractAddress", .str contractAddress),
             ("deployerAddress", .str deployer.address),
             ("network", .str "sepolia".toList),
             ("deployedAt", .str (toISOString env.now)),
             ("blockNumber", .num blockNumber),
             ("productCount", .num 4)]) :: fs.files) := by
  refine ⟨DeployPublicVoting.run_of_seed_failure env fs, ?_⟩
  intro deployer others balance blockNumber contractAddress hSigners hBalance hFactory hDeploy
    hWait hAddress hSeed hBlock hConfirm
  obtain ⟨e, he⟩ := (failed_iff _).mp hConfirm
  have hloop := DeployPublicVoting.createProducts_success env fs _ hSeed
  have hrun : DeployPublicVoting.run env fs =
      ⟨1, { dirs := if "deployments".toList ∈ fs.dirs then fs.dirs
                    else "deployments".toList :: fs.dirs,
            files := ("deployments/sepolia-public-voting.json".toList,
              jsonStringify
                [("contractAddress", .str contractAddress),
                 ("deployerAddress", .str deployer.address),
                 ("network", .str "sepolia".toList),
                 ("deployedAt", .str (toISOString env.now)),
                 ("blockNumber", .num blockNumber),
                 ("productCount", .num 4)]) :: fs.files }⟩ := by
    unfold DeployPublicVoting.run DeployPublicVoting.main exitWith
    simp only [hSigners, hBalance, hFactory, hDeploy, hWait, hAddress, hBlock, he]
    simp only [bind, Script.bind, await, Except.bind, firstSigner, existsSync, mkdirSync,
      writeFileSync, deploymentsDir, pure, Script.pure, hloop,
      DeployPublicVoting.deploymentInfo, DeployPublicVoting.recordPath]
    by_cases hdir : "deployments".toList ∈ fs.dirs
    · simp only [hdir, decide_True, Bool.not_true, if_true, Bool.false_eq_true, if_false]
      rfl
    · simp only [hdir, decide_False, Bool.not_false, if_true, Bool.false_eq_true, if_false]
      rfl
  rw [hrun]
  exact ⟨rfl, rfl⟩

/-- C10, amended, on two networks: one rejecting the third seed transaction, one timing
out on the confirmations. -/
theorem C10_inconsistency_window_witness :
    DeployPublicVoting.run
        { sampleChain with
          createProduct := fun name _ =>
            if name = "OpenSea NFT Marketplace".toList then .error "reverted" else .ok () }
        emptyFS = ⟨1, emptyFS⟩ ∧
    (DeployPublicVoting.run { sampleChain with confirmations := fun _ => .error "timeout" }
        emptyFS).status = 1 ∧
    (DeployPublicVoting.run { sampleChain with confirmations := fun _ => .error "timeout" }
        emptyFS).fs.files =
      [("deployments/sepolia-public-voting.json".toList,
        jsonStringify
          [("contractAddress", .str "0x5FbDB2315678afecb367f032d93F642f64180aa3".toList),
           ("deployerAddress", .str "0xf39Fd6e51aad88F6F4ce6aB8827279cffFb92266".toList),
           ("network", .str "sepolia".toList),
           ("deployedAt", .str (toISOString 1700000000000)),
           ("blockNumber", .num 1),
           ("productCount", .num 4)])] :=
  ⟨(C10_inconsistency_window _ emptyFS).1
      ⟨("OpenSea NFT Marketplace",
        "Leading marketplace for buying, selling, and creating NFTs on multiple blockchains"),
        by decide, Or.inl rfl⟩,
    (C10_inconsistency_window { sampleChain with confirmations := fun _ => .error "timeout" }
      emptyFS).2 ⟨"0xf39Fd6e51aad88F6F4ce6aB8827279cffFb92266".toList⟩ [] 10000000000000000000000 1
      "0x5FbDB2315678afecb367f032d93F642f64180aa3".toList rfl rfl rfl rfl rfl rfl
      (by decide) rfl rfl⟩

/-! ## Lemmas on occurrences of a string -/

theorem findFirst_some (N : Text) :
    ∀ (s : Text) (m : Match), findFirst N s = some m → s = m.before ++ N ++ m.after := by
  intro s
  induction s with
  | nil =>
    intro m h
    by_cases hp : N.isPrefixOf [] = true
    · simp only [findFirst, hp, if_true, Option.some.injEq] at h
      subst h
      have : N = [] := by
        cases N with
        | nil => rfl
        | cons c N => simp [List.isPrefixOf] at hp
      simp [this]
    · simp [findFirst, hp] at h
  | cons c s ih =>
    intro m h
    by_cases hp : N.isPrefixOf (c :: s) = true
    · simp only [findFirst, hp, if_true, Option.some.injEq] at h
      subst h
      obtain ⟨t, ht⟩ := List.isPrefixOf_iff_prefix.mp hp
      rw [← ht]
      simp
    · simp only [findFirst, hp, Bool.false_eq_true, if_false] at h
      cases hs : findFirst N s with
      | none => rw [hs] at h; cases h
      | some m' =>
        rw [hs] at h
        simp only [Option.map_some', Option.some.injEq] at h
        subst h
        have := ih m' hs
        simp [List.append_assoc] at this ⊢
        exact this

theorem findFirst_none (N : Text) :
    ∀ (s : Text), findFirst N s = none → ∀ q t : Text, s ≠ q ++ N ++ t := by
  intro s
  induction s with
  | nil =>
    intro h q t hq
    have hN : N = [] := by
      have := congrArg List.length hq
      simp at this
      exact List.length_eq_zero.mp (by omega)
    subst hN
    simp [findFirst] at h
  | cons c s ih =>
    intro h q t hq
    by_cases hp : N.isPrefixOf (c :: s) = true
    · simp [findFirst, hp] at h
    · simp only [findFirst, hp, Bool.false_eq_true, if_false, Option.map_eq_none'] at h
      cases q with
      | nil =>
        apply hp
        rw [List.isPrefixOf_iff_prefix, hq]
        exact ⟨t, by simp⟩
      | cons c' q =>
        simp only [List.cons_append, List.cons.injEq] at hq
        exact ih h q t hq.2

/-- The two outcomes of `replace` with a string pattern. -/
theorem replaceString_cases (N T s : Text) (hT : '$' ∉ T) :
    ((∀ q t : Text, s ≠ q ++ N ++ t) ∧ replaceString N T s = s) ∨
      ∃ q t : Text, s = q ++ N ++ t ∧ replaceString N T s = q ++ T ++ t := by
  cases h : findFirst N s with
  | none =>
    left
    exact ⟨findFirst_none N s h, by simp [replaceString, h]⟩
  | some m =>
    right
    refine ⟨m.before, m.after, findFirst_some N s m h, ?_⟩
    simp [replaceString, h, getSubstitution_literal m T hT]

theorem replaceString_absent (N T s : Text) (hT : '$' ∉ T) (h : ∀ q t : Text, s ≠ q ++ N ++ t) :
    replaceString N T s = s := by
  rcases replaceString_cases N T s hT with ⟨-, h'⟩ | ⟨q, t, hs, -⟩
  · exact h'
  · exact absurd hs (h q t)

theorem replaceString_same (N s : Text) (hN : '$' ∉ N) : replaceString N N s = s := by
  rcases replaceString_cases N N s hN with ⟨-, h'⟩ | ⟨q, t, hs, h'⟩
  · exact h'
  · rw [h', hs]

theorem occurrences_pos (N : Text) : ∀ (q t : Text), 1 ≤ occurrences N (q ++ N ++ t) := by
  intro q
  induction q with
  | nil =>
    intro t
    have hp : N.isPrefixOf (N ++ t) = true := List.isPrefixOf_iff_prefix.mpr ⟨t, rfl⟩
    rw [List.nil_append]
    cases hNt : N ++ t with
    | nil => rw [hNt] at hp; simp [occurrences, hp]
    | cons c s => rw [hNt] at hp; simp [occurrences, hp]
  | cons c q ih =>
    intro t
    have := ih t
    show 1 ≤ (if N.isPrefixOf (c :: (q ++ N ++ t)) = true then 1 else 0)
      + occurrences N (q ++ N ++ t)
    omega

/-- A string that occurs at most once has one place only. -/
theorem unique_of_occurrences (N : Text) :
    ∀ (d : Text), occurrences N d ≤ 1 →
      ∀ q1 t1 q2 t2 : Text, d = q1 ++ N ++ t1 → d = q2 ++ N ++ t2 → q1 = q2 := by
  intro d
  induction d with
  | nil =>
    intro _ q1 t1 q2 t2 h1 h2
    have e1 := congrArg List.length h1
    have e2 := congrArg List.length h2
    simp at e1 e2
    rw [List.length_eq_zero.mp (by omega : q1.length = 0),
      List.length_eq_zero.mp (by omega : q2.length = 0)]
  | cons c s ih =>
    intro hocc q1 t1 q2 t2 h1 h2
    simp only [occurrences] at hocc
    cases q1 with
    | nil =>
      cases q2 with
      | nil => rfl
      | cons c2 q2 =>
        exfalso
        have hp : N.isPrefixOf (c :: s) = true := by
          rw [List.isPrefixOf_iff_prefix, h1]; exact ⟨t1, by simp⟩
        simp only [List.cons_append, List.cons.injEq] at h2
        have := occurrences_pos N q2 t2
        rw [← h2.2] at this
        rw [if_pos hp] at hocc
        omega
    | cons c1 q1 =>
      cases q2 with
      | nil =>
        exfalso
        have hp : N.isPrefixOf (c :: s) = true := by
          rw [List.isPrefixOf_iff_prefix, h2]; exact ⟨t2, by simp⟩
        simp only [List.cons_append, List.cons.injEq] at h1
        have := occurrences_pos N q1 t1
        rw [← h1.2] at this
        rw [if_pos hp] at hocc
        omega
      | cons c2 q2 =>
        simp only [List.cons_append, List.cons.injEq] at h1 h2
        have hs : occurrences N s ≤ 1 := by omega
        rw [ih hs q1 t1 q2 t2 h1.2 h2.2, ← h1.1, ← h2.1]

theorem agrees_of_common : ∀ (N v : Text) (Vs : Shape) (x y : Text),
    List.Forall₂ (fun c k => c ∈ k) v Vs → N ++ x = v ++ y → agrees N Vs = true := by
  intro N
  induction N with
  | nil => intro v Vs x y _ _; simp [agrees]
  | cons c N ih =>
    intro v Vs x y hfit h
    cases hfit with
    | nil => simp [agrees]
    | @cons c' k v' ks hck hrest =>
      simp only [List.cons_append, List.cons.injEq] at h
      obtain ⟨rfl, h⟩ := h
      simp only [agrees, Bool.and_eq_true]
      exact ⟨by simpa using hck, ih v' ks x y hrest h⟩

/-- Where a string can occur in a text around an inserted piece `T` of a given shape:
before the piece, after it, or exactly at its place. -/
theorem occurrence_around (N T : Text) (Ts : Shape)
    (hfit : List.Forall₂ (fun c k => c ∈ k) T Ts)
    (hA : ∀ o, o < Ts.length → 1 ≤ o → agrees N (Ts.drop o) = false)
    (hB : ∀ o, o < N.length → 1 ≤ o → agrees (N.drop o) Ts = false)
    (p r p' r' : Text) (h : p ++ T ++ r = p' ++ N ++ r') :
    (∃ x, p = p' ++ N ++ x) ∨ (∃ y, p' = p ++ T ++ y ∧ r = y ++ N ++ r') ∨
      (p' = p ∧ T ++ r = N ++ r') := by
  have hlen := hfit.length_eq
  have h' : p ++ (T ++ r) = p' ++ (N ++ r') := by simpa using h
  rcases List.append_eq_append_iff.mp h' with ⟨u, hp', hu⟩ | ⟨u, hp, hu⟩
  · rcases List.append_eq_append_iff.mp hu with ⟨v, hu2, hr⟩ | ⟨v, hT, hN⟩
    · right; left
      exact ⟨v, by rw [hp', hu2]; simp, by rw [hr]; simp⟩
    · by_cases hu0 : u = []
      · subst hu0
        right; right
        exact ⟨by simpa using hp', by simpa using hu⟩
      · by_cases hv0 : v = []
        · subst hv0
          right; left
          refine ⟨[], ?_, ?_⟩
          · simp only [List.append_nil] at hT
            rw [hp', hT]; simp
          · simpa using hN.symm
        · exfalso
          have hTlen : T.length = u.length + v.length := by
            rw [hT]; simp
          have hupos : 1 ≤ u.length := by
            cases u with
            | nil => exact absurd rfl hu0
            | cons _ _ => simp
          have hvpos : 1 ≤ v.length := by
            cases v with
            | nil => exact absurd rfl hv0
            | cons _ _ => simp
          have hdrop : T.drop u.length = v := by
            rw [hT]; simp
          have hfit' := List.forall₂_drop u.length hfit
          rw [hdrop] at hfit'
          have := agrees_of_common N v (Ts.drop u.length) r' r hfit' hN
          rw [hA u.length (by omega) hupos] at this
          cases this
  · rcases List.append_eq_append_iff.mp hu with ⟨v, hu2, hr⟩ | ⟨v, hN, hT⟩
    · left
      exact ⟨v, by rw [hp, hu2]; simp⟩
    · by_cases hu0 : u = []
      · subst hu0
        right; right
        exact ⟨by simpa using hp.symm, by simpa using hu.symm⟩
      · by_cases hv0 : v = []
        · subst hv0
          left
          refine ⟨[], ?_⟩
          simp only [List.append_nil] at hN
          rw [hp, hN]; simp
        · exfalso
          have hNlen : N.length = u.length + v.length := by
            rw [hN]; simp
          have hupos : 1 ≤ u.length := by
            cases u with
            | nil => exact absurd rfl hu0
            | cons _ _ => simp
          have hvpos : 1 ≤ v.length := by
            cases v with
            | nil => exact absurd rfl hv0
            | cons _ _ => simp
          have hdrop : N.drop u.length = v := by
            rw [hN]; simp
          have := agrees_of_common v T Ts r' r hfit hT.symm
          rw [← hdrop, hB u.length (by omega) hupos] at this
          cases this

theorem unique_after_insert (N S T p r : Text) (hN : N ≠ [])
    (hno : ∀ p r p' r' : Text, p ++ T ++ r = p' ++ N ++ r' →
      (∃ x, p = p' ++ N ++ x) ∨ (∃ y, p' = p ++ T ++ y ∧ r = y ++ N ++ r'))
    (huniq : ∀ q1 t1 q2 t2 : Text,
      p ++ S ++ r = q1 ++ N ++ t1 → p ++ S ++ r = q2 ++ N ++ t2 → q1 = q2) :
    ∀ q1 t1 q2 t2 : Text,
      p ++ T ++ r = q1 ++ N ++ t1 → p ++ T ++ r = q2 ++ N ++ t2 → q1 = q2 := by
  have hNlen : 0 < N.length := List.length_pos.mpr hN
  intro q1 t1 q2 t2 h1 h2
  rcases hno p r q1 t1 h1 with ⟨x1, hx1⟩ | ⟨y1, hq1, hr1⟩
  · rcases hno p r q2 t2 h2 with ⟨x2, hx2⟩ | ⟨y2, hq2, hr2⟩
    · exact huniq q1 (x1 ++ S ++ r) q2 (x2 ++ S ++ r)
        (by rw [hx1]; simp) (by rw [hx2]; simp)
    · exfalso
      have := huniq q1 (x1 ++ S ++ r) (p ++ S ++ y2) t2
        (by rw [hx1]; simp) (by rw [hr2]; simp)
      have hl := congrArg List.length this
      rw [hx1] at hl
      simp only [List.length_append] at hl
      omega
  · rcases hno p r q2 t2 h2 with ⟨x2, hx2⟩ | ⟨y2, hq2, hr2⟩
    · exfalso
      have := huniq (p ++ S ++ y1) t1 q2 (x2 ++ S ++ r)
        (by rw [hr1]; simp) (by rw [hx2]; simp)
      have hl := congrArg List.length this
      rw [hx2] at hl
      simp only [List.length_append] at hl
      omega
    · have := huniq (p ++ S ++ y1) t1 (p ++ S ++ y2) t2
        (by rw [hr1]; simp) (by rw [hr2]; simp)
      have hy : y1 = y2 := by simpa using this
      rw [hq1, hq2, hy]

theorem absent_after_insert (N S T p r : Text)
    (hno : ∀ p r p' r' : Text, p ++ T ++ r = p' ++ N ++ r' →
      (∃ x, p = p' ++ N ++ x) ∨ (∃ y, p' = p ++ T ++ y ∧ r = y ++ N ++ r'))
    (habs : ∀ q t : Text, p ++ S ++ r ≠ q ++ N ++ t) :
    ∀ q t : Text, p ++ T ++ r ≠ q ++ N ++ t := by
  intro q t h
  rcases hno p r q t h with ⟨x, hx⟩ | ⟨y, -, hr⟩
  · exact habs q (x ++ S ++ r) (by rw [hx]; simp)
  · exact habs (p ++ S ++ y) t (by rw [hr]; simp)

theorem absent_after_replace (N T p r : Text) (hN : N ≠ [])
    (hno : ∀ p r p' r' : Text, p ++ T ++ r = p' ++ N ++ r' →
      (∃ x, p = p' ++ N ++ x) ∨ (∃ y, p' = p ++ T ++ y ∧ r = y ++ N ++ r'))
    (huniq : ∀ q1 t1 q2 t2 : Text,
      p ++ N ++ r = q1 ++ N ++ t1 → p ++ N ++ r = q2 ++ N ++ t2 → q1 = q2) :
    ∀ q t : Text, p ++ T ++ r ≠ q ++ N ++ t := by
  have hNlen : 0 < N.length := List.length_pos.mpr hN
  intro q t h
  rcases hno p r q t h with ⟨x, hx⟩ | ⟨y, -, hr⟩
  · have := huniq q (x ++ N ++ r) p r (by rw [hx]; simp) rfl
    have hl := congrArg List.length hx
    rw [this] at hl
    simp only [List.length_append] at hl
    omega
  · have := huniq (p ++ N ++ y) t p r (by rw [hr]; simp) rfl
    have hl := congrArg List.length this
    simp only [List.length_append] at hl
    omega

/-! ## Lemmas on `update-config.js` -/

theorem fits_exactly : ∀ (l : Text),
    List.Forall₂ (fun c k => c ∈ k) l (l.map fun c => [c]) := by
  intro l
  induction l with
  | nil => exact List.Forall₂.nil
  | cons c l ih => exact List.Forall₂.cons (by simp) ih

theorem fits_replicate (k : List Char) : ∀ (n : Nat) (xs : Text),
    xs.length = n → (∀ c ∈ xs, c ∈ k) →
    List.Forall₂ (fun c k => c ∈ k) xs (List.replicate n k) := by
  intro n
  induction n with
  | zero =>
    intro xs hlen _
    rw [List.length_eq_zero.mp hlen]
    exact List.Forall₂.nil
  | succ n ih =>
    intro xs hlen hall
    cases xs with
    | nil => simp at hlen
    | cons c xs =>
      exact List.Forall₂.cons (hall c (List.mem_cons_self _ _))
        (ih xs (by simpa using hlen) fun d hd => hall d (List.mem_cons_of_mem _ hd))

theorem fits_address (a : Text) (ha : reTest UpdateConfigPrivateVoting.addressRe a = true) :
    List.Forall₂ (fun c k => c ∈ k) a addressShape := by
  obtain ⟨xs, rfl, hlen, hall⟩ := (addressRe_match a).mp ha
  exact List.Forall₂.cons (by simp) (List.Forall₂.cons (by simp) (fits_replicate _ 40 xs hlen hall))

namespace UpdateConfig

theorem fits_shape1 (a : Text) (ha : reTest UpdateConfigPrivateVoting.addressRe a = true) :
    List.Forall₂ (fun c k => c ∈ k) (replacement1 a) shape1 :=
  List.rel_append (List.rel_append (fits_exactly _) (fits_address a ha)) (fits_exactly _)

theorem fits_shape2 (a : Text) (ha : reTest UpdateConfigPrivateVoting.addressRe a = true) :
    List.Forall₂ (fun c k => c ∈ k) (replacement2 a) shape2 :=
  List.rel_append (List.rel_append (fits_exactly _) (fits_address a ha)) (fits_exactly _)

theorem replacement1_no_dollar (a : Text) (ha : '$' ∉ a) : '$' ∉ replacement1 a := by
  unfold replacement1
  intro h
  rcases List.mem_append.mp h with h | h
  · rcases List.mem_append.mp h with h | h
    · revert h; decide
    · exact ha h
  · revert h; decide

theorem replacement2_no_dollar (a : Text) (ha : '$' ∉ a) : '$' ∉ replacement2 a := by
  unfold replacement2
  intro h
  rcases List.mem_append.mp h with h | h
  · rcases List.mem_append.mp h with h | h
    · revert h; decide
    · exact ha h
  · revert h; decide

/-- The first placeholder cannot straddle the text put in its place. -/
theorem placeholder1_around_replacement1 (a : Text)
    (ha : reTest UpdateConfigPrivateVoting.addressRe a = true)
    (hz : replacement1 a ≠ placeholder1) (p r p' r' : Text)
    (h : p ++ replacement1 a ++ r = p' ++ placeholder1 ++ r') :
    (∃ x, p = p' ++ placeholder1 ++ x) ∨
      (∃ y, p' = p ++ replacement1 a ++ y ∧ r = y ++ placeholder1 ++ r') := by
  rcases occurrence_around placeholder1 (replacement1 a) shape1 (fits_shape1 a ha)
    (by decide) (by decide) p r p' r' h with h1 | h2 | ⟨-, h3⟩
  · exact Or.inl h1
  · exact Or.inr h2
  · exfalso
    have hlen : (replacement1 a).length = placeholder1.length := by
      have := (fits_shape1 a ha).length_eq
      rw [this]; decide
    exact hz (List.append_inj h3 hlen).1

theorem placeholder1_around_replacement2 (a : Text)
    (ha : reTest UpdateConfigPrivateVoting.addressRe a = true) (p r p' r' : Text)
    (h : p ++ replacement2 a ++ r = p' ++ placeholder1 ++ r') :
    (∃ x, p = p' ++ placeholder1 ++ x) ∨
      (∃ y, p' = p ++ replacement2 a ++ y ∧ r = y ++ placeholder1 ++ r') := by
  rcases occurrence_around placeholder1 (replacement2 a) shape2 (fits_shape2 a ha)
    (by decide) (by decide) p r p' r' h with h1 | h2 | ⟨-, h3⟩
  · exact Or.inl h1
  · exact Or.inr h2
  · exfalso
    have := agrees_of_common placeholder1 (replacement2 a) shape2 r' r (fits_shape2 a ha) h3.symm
    revert this
    decide

theorem placeholder2_around_replacement1 (a : Text)
    (ha : reTest UpdateConfigPrivateVoting.addressRe a = true) (p r p' r' : Text)
    (h : p ++ replacement1 a ++ r = p' ++ placeholder2 ++ r') :
    (∃ x, p = p' ++ placeholder2 ++ x) ∨
      (∃ y, p' = p ++ replacement1 a ++ y ∧ r = y ++ placeholder2 ++ r') := by
  rcases occurrence_around placeholder2 (replacement1 a) shape1 (fits_shape1 a ha)
    (by decide) (by decide) p r p' r' h with h1 | h2 | ⟨-, h3⟩
  · exact Or.inl h1
  · exact Or.inr h2
  · exfalso
    have := agrees_of_common placeholder2 (replacement1 a) shape1 r' r (fits_shape1 a ha) h3.symm
    revert this
    decide

theorem placeholder2_around_replacement2 (a : Text)
    (ha : reTest UpdateConfigPrivateVoting.addressRe a = true) (p r p' r' : Text)
    (h : p ++ replacement2 a ++ r = p' ++ placeholder2 ++ r') :
    (∃ x, p = p' ++ placeholder2 ++ x) ∨
      (∃ y, p' = p ++ replacement2 a ++ y ∧ r = y ++ placeholder2 ++ r') := by
  rcases occurrence_around placeholder2 (replacement2 a) shape2 (fits_shape2 a ha)
    (by decide) (by decide) p r p' r' h with h1 | h2 | ⟨-, h3⟩
  · exact Or.inl h1
  · exact Or.inr h2
  · exfalso
    have := agrees_of_common placeholder2 (replacement2 a) shape2 r' r (fits_shape2 a ha) h3.symm
    revert this
    decide

/-- With each placeholder at most once in the text, a second synchronization with the
same address finds nothing to replace. -/
theorem updatedContent_twice (a d : Text)
    (ha : reTest UpdateConfigPrivateVoting.addressRe a = true)
    (h1 : occurrences placeholder1 d ≤ 1) (h2 : occurrences placeholder2 d ≤ 1) :
    updatedContent a (updatedContent a d) = updatedContent a d := by
  have hd := address_no_dollar a ha
  have hT1 := replacement1_no_dollar a hd
  have hT2 := replacement2_no_dollar a hd
  have hN1 : placeholder1 ≠ [] := by decide
  have hN2 : placeholder2 ≠ [] := by decide
  have u1 := unique_of_occurrences placeholder1 d h1
  have u2 := unique_of_occurrences placeholder2 d h2
  -- the text after the first replacement
  have hB : ∀ q1 t1 q2 t2 : Text,
      replaceString placeholder1 (replacement1 a) d = q1 ++ placeholder2 ++ t1 →
      replaceString placeholder1 (replacement1 a) d = q2 ++ placeholder2 ++ t2 → q1 = q2 := by
    rcases replaceString_cases placeholder1 (replacement1 a) d hT1 with ⟨-, e⟩ | ⟨p, r, hs, e⟩
    · rw [e]; exact u2
    · rw [e]
      exact unique_after_insert placeholder2 placeholder1 (replacement1 a) p r hN2
        (placeholder2_around_replacement1 a ha) (hs ▸ u2)
  have hA : replacement1 a ≠ placeholder1 →
      ∀ q t : Text, replaceString placeholder1 (replacement1 a) d ≠ q ++ placeholder1 ++ t := by
    intro hz
    rcases replaceString_cases placeholder1 (replacement1 a) d hT1 with ⟨habs, e⟩ | ⟨p, r, hs, e⟩
    · rw [e]; exact habs
    · rw [e]
      exact absent_after_replace placeholder1 (replacement1 a) p r hN1
        (placeholder1_around_replacement1 a ha hz) (hs ▸ u1)
  -- the text after the second replacement
  have hD : ∀ q t : Text, updatedContent a d ≠ q ++ placeholder2 ++ t := by
    unfold updatedContent
    rcases replaceString_cases placeholder2 (replacement2 a)
      (replaceString placeholder1 (replacement1 a) d) hT2 with ⟨habs, e⟩ | ⟨p, r, hs, e⟩
    · simp only [e]; exact habs
    · simp only [e]
      exact absent_after_replace placeholder2 (replacement2 a) p r hN2
        (placeholder2_around_replacement2 a ha) (hs ▸ hB)
  have hC : replacement1 a ≠ placeholder1 →
      ∀ q t : Text, updatedContent a d ≠ q ++ placeholder1 ++ t := by
    intro hz
    unfold updatedContent
    rcases replaceString_cases placeholder2 (replacement2 a)
      (replaceString placeholder1 (replacement1 a) d) hT2 with ⟨-, e⟩ | ⟨p, r, hs, e⟩
    · simp only [e]; exact hA hz
    · simp only [e]
      exact absent_after_insert placeholder1 placeholder2 (replacement2 a) p r
        (placeholder1_around_replacement2 a ha) (hs ▸ hA hz)
  have hR1 : replaceString placeholder1 (replacement1 a) (updatedContent a d)
      = updatedContent a d := by
    by_cases hz : replacement1 a = placeholder1
    · rw [hz]
      exact replaceString_same placeholder1 _ (by decide)
    · exact replaceString_absent _ _ _ hT1 (hC hz)
  have hR2 : replaceString placeholder2 (replacement2 a) (updatedContent a d)
      = updatedContent a d := replaceString_absent _ _ _ hT2 hD
  show replaceString placeholder2 (replacement2 a)
      (replaceString placeholder1 (replacement1 a) (updatedContent a d)) = updatedContent a d
  rw [hR1, hR2]

end UpdateConfig

/-! ## The config synchronizer `update-config.js` -/

/-- C6: `update-config.js` run with an argument that is not an address: the placeholder
is overwritten with the argument and the run ends with status 0. -/
theorem C6_update_config_takes_any_argument :
    reTest UpdateConfigPrivateVoting.addressRe "not-an-address".toList = false ∧
    UpdateConfig.main ["node".toList, "update-config.js".toList, "not-an-address".toList]
        (some "PRODUCT_FEEDBACK_VOTING: '0x0000000000000000000000000000000000000000'".toList) =
      ⟨0, some "PRODUCT_FEEDBACK_VOTING: 'not-an-address'".toList,
        ["PRODUCT_FEEDBACK_VOTING: 'not-an-address'".toList]⟩ :=
  ⟨by decide, rfl⟩

/-- C7 as stated fails: on a text with the first placeholder twice, the first run rewrites
the first occurrence and a second run with the same address rewrites the second one. -/
theorem C7_second_run_rewrites_second_placeholder :
    reTest UpdateConfigPrivateVoting.addressRe
        "0x1234567890123456789012345678901234567890".toList = true ∧
    UpdateConfig.updateContractAddress "0x1234567890123456789012345678901234567890".toList
        (some ("PRODUCT_FEEDBACK_VOTING: '0x0000000000000000000000000000000000000000'\n" ++
          "PRODUCT_FEEDBACK_VOTING: '0x0000000000000000000000000000000000000000'").toList) =
      some (("PRODUCT_FEEDBACK_VOTING: '0x1234567890123456789012345678901234567890'\n" ++
          "PRODUCT_FEEDBACK_VOTING: '0x0000000000000000000000000000000000000000'").toList,
        [("PRODUCT_FEEDBACK_VOTING: '0x1234567890123456789012345678901234567890'\n" ++
          "PRODUCT_FEEDBACK_VOTING: '0x0000000000000000000000000000000000000000'").toList]) ∧
    UpdateConfig.updateContractAddress "0x1234567890123456789012345678901234567890".toList
        (some ("PRODUCT_FEEDBACK_VOTING: '0x1234567890123456789012345678901234567890'\n" ++
          "PRODUCT_FEEDBACK_VOTING: '0x0000000000000000000000000000000000000000'").toList) =
      some (("PRODUCT_FEEDBACK_VOTING: '0x1234567890123456789012345678901234567890'\n" ++
          "PRODUCT_FEEDBACK_VOTING: '0x1234567890123456789012345678901234567890'").toList,
        [("PRODUCT_FEEDBACK_VOTING: '0x1234567890123456789012345678901234567890'\n" ++
          "PRODUCT_FEEDBACK_VOTING: '0x1234567890123456789012345678901234567890'").toList]) ∧
    ("PRODUCT_FEEDBACK_VOTING: '0x1234567890123456789012345678901234567890'\n" ++
          "PRODUCT_FEEDBACK_VOTING: '0x1234567890123456789012345678901234567890'").toList ≠
      ("PRODUCT_FEEDBACK_VOTING: '0x1234567890123456789012345678901234567890'\n" ++
          "PRODUCT_FEEDBACK_VOTING: '0x0000000000000000000000000000000000000000'").toList :=
  ⟨by decide, rfl, rfl, by decide⟩

/-- C7, amended: config-sync idempotence of `updateContractAddress` for every text `d` in
which each of the two placeholder strings occurs at most once and every valid address
`a`: a second run with `a` writes the file the first run wrote. -/
theorem C7_idempotent_when_placeholders_unique (a d : Text)
    (ha : reTest UpdateConfigPrivateVoting.addressRe a = true)
    (h1 : occurrences UpdateConfig.placeholder1 d ≤ 1)
    (h2 : occurrences UpdateConfig.placeholder2 d ≤ 1) :
    ∃ d1 : Text,
      UpdateConfig.updateContractAddress a (some d) = some (d1, [d1]) ∧
      UpdateConfig.updateContractAddress a (some d1) = some (d1, [d1]) := by
  refine ⟨UpdateConfig.updatedContent a d, rfl, ?_⟩
  simp only [UpdateConfig.updateContractAddress]
  rw [UpdateConfig.updatedContent_twice a d ha h1 h2]

/-- C7, amended, on a text with each placeholder once. -/
theorem C7_idempotent_when_placeholders_unique_witness :
    reTest UpdateConfigPrivateVoting.addressRe
        "0x1234567890123456789012345678901234567890".toList = true ∧
    occurrences UpdateConfig.placeholder1
      ("PRODUCT_FEEDBACK_VOTING: '0x0000000000000000000000000000000000000000'\n" ++
        "CONTRACT_ADDRESS = window.CONFIG?.CONTRACT_ADDRESS || \"0x0000000000000000000000000000000000000000\";\n").toList ≤ 1 ∧
    occurrences UpdateConfig.placeholder2
      ("PRODUCT_FEEDBACK_VOTING: '0x0000000000000000000000000000000000000000'\n" ++
        "CONTRACT_ADDRESS = window.CONFIG?.CONTRACT_ADDRESS || \"0x0000000000000000000000000000000000000000\";\n").toList ≤ 1 ∧
    ∃ d1 : Text,
      UpdateConfig.updateContractAddress "0x1234567890123456789012345678901234567890".toList
        (some ("PRODUCT_FEEDBACK_VOTING: '0x0000000000000000000000000000000000000000'\n" ++
          "CONTRACT_ADDRESS = window.CONFIG?.CONTRACT_ADDRESS || \"0x0000000000000000000000000000000000000000\";\n").toList)
        = some (d1, [d1]) ∧
      UpdateConfig.updateContractAddress "0x1234567890123456789012345678901234567890".toList
        (some d1) = some (d1, [d1]) :=
  ⟨by decide, by decide, by decide,
    C7_idempotent_when_placeholders_unique _ _ (by decide) (by decide) (by decide)⟩
